import Mathlib

set_option maxRecDepth 1000000

/-!
Shallow embedding of the LibreChat default-agent reconciliation engine
(api/server/services/DefaultAgents/sync.js, hashUtils.js,
api/server/services/ActionService.js, api/server/utils/files/loadConfigFile.js,
api/server/utils/files/validateConfigFile.js) together with theorems checking
the engine's specification against this embedding.

Conventions used throughout:
* JavaScript dynamic values are modelled by the inductive type Jval
  (undefined, null, booleans, numbers, strings, arrays, objects); objects are
  ordered association lists, matching JS property-insertion order.
* Numbers are modelled as integers: the configuration values the engine reads
  (recursion limits, model parameters) are integral, and no claim involves
  floating-point behaviour.
* Node collaborators that are external to the repository (js-yaml, JSON.parse,
  crypto key handling in encryptV2, encodeURIComponent, the filesystem,
  process.env, the avatar upload pipeline) are supplied by an explicit
  environment record Env.
* The persistence layer (models/Agent, models/Action) is not part of the
  source tree; it is modelled from the spec's collaborator interface (section 6)
  as an in-memory store of agent and action records with upsert semantics,
  plus an operation log used to state write-count properties.
* Thrown JS errors are modelled by Except String carrying the error message;
  state mutations performed before a throw survive it, so stateful steps
  return a pair of the Except result and the updated world.
-/

namespace SHA

/-- Truncate a natural number to a 32-bit word, as JS/crypto 32-bit arithmetic does. -/
def w32 (n : Nat) : Nat := n % 4294967296

/-- Rotate a 32-bit word right by n bits. -/
def rotr (n x : Nat) : Nat := w32 ((x >>> n) ||| (x <<< (32 - n)))

def bigSigma0 (x : Nat) : Nat := (rotr 2 x) ^^^ (rotr 13 x) ^^^ (rotr 22 x)

def bigSigma1 (x : Nat) : Nat := (rotr 6 x) ^^^ (rotr 11 x) ^^^ (rotr 25 x)

def smallSigma0 (x : Nat) : Nat := (rotr 7 x) ^^^ (rotr 18 x) ^^^ (x >>> 3)

def smallSigma1 (x : Nat) : Nat := (rotr 17 x) ^^^ (rotr 19 x) ^^^ (x >>> 10)

/-- The 64 SHA-256 round constants. -/
def kConst : List Nat :=
  [1116352408, 1899447441, 3049323471, 3921009573, 961987163, 1508970993, 2453635748, 2870763221,
   3624381080, 310598401, 607225278, 1426881987, 1925078388, 2162078206, 2614888103, 3248222580,
   3835390401, 4022224774, 264347078, 604807628, 770255983, 1249150122, 1555081692, 1996064986,
   2554220882, 2821834349, 2952996808, 3210313671, 3336571891, 3584528711, 113926993, 338241895,
   666307205, 773529912, 1294757372, 1396182291, 1695183700, 1986661051, 2177026350, 2456956037,
   2730485921, 2820302411, 3259730800, 3345764771, 3516065817, 3600352804, 4094571909, 275423344,
   430227734, 506948616, 659060556, 883997877, 958139571, 1322822218, 1537002063, 1747873779,
   1955562222, 2024104815, 2227730452, 2361852424, 2428436474, 2756734187, 3204031479, 3329325298]

/-- UTF-8 encoding of one character, the byte encoding crypto.update applies to JS strings. -/
def charUtf8 (c : Char) : List Nat :=
  let n := c.toNat
  if n < 0x80 then [n]
  else if n < 0x800 then [0xC0 ||| (n >>> 6), 0x80 ||| (n &&& 0x3F)]
  else if n < 0x10000 then
    [0xE0 ||| (n >>> 12), 0x80 ||| ((n >>> 6) &&& 0x3F), 0x80 ||| (n &&& 0x3F)]
  else
    [0xF0 ||| (n >>> 18), 0x80 ||| ((n >>> 12) &&& 0x3F),
     0x80 ||| ((n >>> 6) &&& 0x3F), 0x80 ||| (n &&& 0x3F)]

def strBytes (s : String) : List Nat := s.data.flatMap charUtf8

/-- SHA-256 padding: append 0x80, zero bytes, and the 64-bit big-endian bit length. -/
def padMessage (bytes : List Nat) : List Nat :=
  let len := bytes.length
  let padLen := (119 - (len % 64)) % 64
  let bitLen := 8 * len
  bytes ++ [0x80] ++ List.replicate padLen 0 ++
    [(bitLen >>> 56) % 256, (bitLen >>> 48) % 256, (bitLen >>> 40) % 256, (bitLen >>> 32) % 256,
     (bitLen >>> 24) % 256, (bitLen >>> 16) % 256, (bitLen >>> 8) % 256, bitLen % 256]

def bytesToWords : List Nat → List Nat
  | b0 :: b1 :: b2 :: b3 :: rest =>
    (b0 <<< 24 ||| b1 <<< 16 ||| b2 <<< 8 ||| b3) :: bytesToWords rest
  | _ => []

def chunkWordsGo : Nat → List Nat → List (List Nat)
  | 0, _ => []
  | _, [] => []
  | fuel + 1, w :: ws => (w :: ws).take 16 :: chunkWordsGo fuel ((w :: ws).drop 16)

/-- Split the word stream into 16-word (512-bit) blocks. -/
def chunkWords (ws : List Nat) : List (List Nat) := chunkWordsGo ws.length ws

/-- Extend a 16-word block to the 64-word message schedule. -/
def schedule (block : List Nat) : List Nat :=
  (List.range 64).foldl
    (fun w i =>
      if i < 16 then w ++ [block.getD i 0]
      else
        w ++ [w32 (smallSigma1 (w.getD (i - 2) 0) + w.getD (i - 7) 0 +
                   smallSigma0 (w.getD (i - 15) 0) + w.getD (i - 16) 0)])
    []

structure Digest where
  a : Nat
  b : Nat
  c : Nat
  d : Nat
  e : Nat
  f : Nat
  g : Nat
  h : Nat

def initDigest : Digest :=
  ⟨1779033703, 3144134277, 1013904242, 2773480762, 1359893119, 2600822924, 528734635, 1541459225⟩

/-- One SHA-256 compression round; 4294967295 - e is the 32-bit complement of e. -/
def round (st : Digest) (kw : Nat × Nat) : Digest :=
  let ch := (st.e &&& st.f) ^^^ ((4294967295 - st.e) &&& st.g)
  let maj := (st.a &&& st.b) ^^^ (st.a &&& st.c) ^^^ (st.b &&& st.c)
  let t1 := w32 (st.h + bigSigma1 st.e + ch + kw.1 + kw.2)
  let t2 := w32 (bigSigma0 st.a + maj)
  ⟨w32 (t1 + t2), st.a, st.b, st.c, w32 (st.d + t1), st.e, st.f, st.g⟩

def compress (st : Digest) (block : List Nat) : Digest :=
  let ws := schedule block
  let fin := (kConst.zip ws).foldl (fun s kw => round s (kw.1, kw.2)) st
  ⟨w32 (st.a + fin.a), w32 (st.b + fin.b), w32 (st.c + fin.c), w32 (st.d + fin.d),
   w32 (st.e + fin.e), w32 (st.f + fin.f), w32 (st.g + fin.g), w32 (st.h + fin.h)⟩

def hexNibble (n : Nat) : Char :=
  if n < 10 then Char.ofNat (48 + n) else Char.ofNat (87 + n)

def wordHex (n : Nat) : List Char :=
  [hexNibble ((n >>> 28) % 16), hexNibble ((n >>> 24) % 16), hexNibble ((n >>> 20) % 16),
   hexNibble ((n >>> 16) % 16), hexNibble ((n >>> 12) % 16), hexNibble ((n >>> 8) % 16),
   hexNibble ((n >>> 4) % 16), hexNibble (n % 16)]

/-- Lowercase hex digest of the UTF-8 bytes of a string: the model of
crypto.createHash('sha256').update(s).digest('hex'). -/
def sha256hex (s : String) : String :=
  let blocks := chunkWords (bytesToWords (padMessage (strBytes s)))
  let d := blocks.foldl compress initDigest
  ⟨wordHex d.a ++ wordHex d.b ++ wordHex d.c ++ wordHex d.d ++
   wordHex d.e ++ wordHex d.f ++ wordHex d.g ++ wordHex d.h⟩

end SHA

namespace DefaultAgents

/-- Lexicographic order (by code point) on character lists; models the default
JS Array.prototype.sort comparison of string keys. -/
def lexLeB : List Char → List Char → Bool
  | [], _ => true
  | _ :: _, [] => false
  | a :: as, b :: bs =>
    if a.toNat < b.toNat then true
    else if b.toNat < a.toNat then false
    else lexLeB as bs

/-- String order used when sorting object keys. -/
def strLeB (a b : String) : Bool := lexLeB a.data b.data

/-- JavaScript dynamic values. Objects are ordered association lists,
matching property-insertion order of JS objects. -/
inductive Jval where
  | undef
  | null
  | bool (b : Bool)
  | num (n : Int)
  | str (s : String)
  | arr (xs : List Jval)
  | obj (fields : List (String × Jval))

/-- JS truthiness of a value. -/
def truthy : Jval → Bool
  | .undef => false
  | .null => false
  | .bool b => b
  | .num n => n != 0
  | .str s => s != ""
  | .arr _ => true
  | .obj _ => true

/-- Model of the JS "a || b" operator. -/
def jsOr (a b : Jval) : Jval := if truthy a then a else b

/-- Property lookup o.k (equally o?.k): undefined when absent or when the
receiver is not an object. -/
def objGet (v : Jval) (k : String) : Jval :=
  match v with
  | .obj fields => (fields.lookup k).getD .undef
  | _ => (.undef)

/-- True when an object value carries the given key. -/
def objHasKey (v : Jval) (k : String) : Bool :=
  match v with
  | .obj fields => (fields.lookup k).isSome
  | _ => false

/-- JS property assignment target[k] = v on a field list: overwrite in place
if the key exists, else append (JS insertion-order semantics). -/
def fieldsSet (fields : List (String × Jval)) (k : String) (v : Jval) : List (String × Jval) :=
  match fields with
  | [] => [(k, v)]
  | (k0, v0) :: rest =>
    if k0 == k then (k0, v) :: rest else (k0, v0) :: fieldsSet rest k v

/-- Object.assign(target, src) on field lists: copy every own property of src. -/
def fieldsAssign (target : List (String × Jval)) (src : Jval) : List (String × Jval) :=
  match src with
  | .obj fs => fs.foldl (fun acc kv => fieldsSet acc kv.1 kv.2) target
  | _ => target

/-- JS strict equality of a value against a string literal (v === "s"). -/
def strictEqStr (v : Jval) (s : String) : Bool :=
  match v with
  | .str t => t == s
  | _ => false

mutual

/-- JS String(v) coercion, used by template literals and encodeURIComponent. -/
def jsToString : Jval → String
  | .undef => "undefined"
  | .null => "null"
  | .bool b => if b then "true" else "false"
  | .num n => toString n
  | .str s => s
  | .arr xs => String.intercalate "," (jsToStringList xs)
  | .obj _ => "[object Object]"

def jsToStringList : List Jval → List String
  | [] => []
  | x :: xs => jsToString x :: jsToStringList xs

end

/-- JSON string escaping for one character. -/
def escapeChar (c : Char) : List Char :=
  if c = '"' then ['\\', '"']
  else if c = '\\' then ['\\', '\\']
  else if c = '\n' then ['\\', 'n']
  else if c = '\t' then ['\\', 't']
  else if c = '\r' then ['\\', 'r']
  else if c.toNat < 32 then
    ['\\', 'u', '0', '0', SHA.hexNibble (c.toNat / 16), SHA.hexNibble (c.toNat % 16)]
  else [c]

/-- JSON rendering of a string literal. -/
def escapeString (s : String) : String :=
  ⟨'"' :: s.data.flatMap escapeChar ++ ['"']⟩

mutual

/-- Model of JSON.stringify. Keys with undefined values are omitted from
objects and undefined array elements render as null, as in JS. A top-level
undefined yields no string in JS; calculateHash is only ever applied to
object literals, so that case is rendered as "null" for totality. -/
def jsonStringify : Jval → String
  | .undef => "null"
  | .null => "null"
  | .bool b => if b then "true" else "false"
  | .num n => toString n
  | .str s => escapeString s
  | .arr xs => "[" ++ String.intercalate "," (stringifyElems xs) ++ "]"
  | .obj fields => "\x7b" ++ String.intercalate "," (stringifyFields fields) ++ "\x7d"

def stringifyElems : List Jval → List String
  | [] => []
  | x :: xs => jsonStringify x :: stringifyElems xs

def stringifyFields : List (String × Jval) → List String
  | [] => []
  | (_, .undef) :: rest => stringifyFields rest
  | (k, v) :: rest => (escapeString k ++ ":" ++ jsonStringify v) :: stringifyFields rest

end

/-- Ordering of object entries by key, used to model iterating
Object.keys(obj).sort(). -/
def entryLe (p q : String × Jval) : Prop := strLeB p.1 q.1 = true

instance : DecidableRel entryLe := fun _ _ => inferInstanceAs (Decidable (_ = true))

mutual

/-- Model of hashUtils.sortObject: recursively sort object keys, pass arrays
through elementwise, pass scalars through. The JS loop iterates
Object.keys(obj).sort() and rebuilds the object by lookup; since a JS
object's keys are pairwise distinct this equals sorting the entries by key
after recursively sorting each value, which is the form used here. -/
def sortObject : Jval → Jval
  | .undef => .undef
  | .null => .null
  | .bool b => .bool b
  | .num n => .num n
  | .str s => .str s
  | .arr xs => .arr (sortObjectList xs)
  | .obj fields => .obj (List.insertionSort entryLe (sortObjectFields fields))

def sortObjectList : List Jval → List Jval
  | [] => []
  | x :: xs => sortObject x :: sortObjectList xs

def sortObjectFields : List (String × Jval) → List (String × Jval)
  | [] => []
  | (k, v) :: rest => (k, sortObject v) :: sortObjectFields rest

end

/-- Model of hashUtils.calculateHash: sort keys, serialize to canonical JSON,
SHA-256, hex digest. -/
def calculateHash (data : Jval) : String :=
  SHA.sha256hex (jsonStringify (sortObject data))

/-- Model of hashUtils.hashesEqual: byte-for-byte string equality. -/
def hashesEqual (h1 h2 : String) : Bool := h1 == h2

/-- Model of hashUtils.generateActionId: the template literal
domain ++ "_" ++ agentId. -/
def generateActionId (domain agentId : String) : String := domain ++ "_" ++ agentId

end DefaultAgents

namespace DefaultAgents

/-- One declared action from the configuration. Fields that the engine
accesses only through truthiness checks or spreads are kept dynamic (Jval,
with undef marking an absent key); domain is typed as a string because every
use site (action ids, persisted metadata, messages) consumes it as one. -/
structure ActionConfig where
  domain : String
  spec : Jval
  specFile : Jval
  auth : Jval
  privacy_policy_url : Jval

/-- One declared agent from the configuration. id, name, provider and model
are typed as strings (their only reads are truthiness checks and string
uses); optional fields are dynamic with undef marking an absent key. -/
structure AgentConfig where
  id : String
  name : String
  description : Jval
  instructions : Jval
  instructionsFile : Jval
  icon : Jval
  iconFile : Jval
  provider : String
  model : String
  category : Jval
  model_parameters : Jval
  recursion_limit : Jval
  tools : Jval
  tool_resources : Jval
  actions : Option (List ActionConfig)

/-- Model of hashUtils.calculateAgentConfigHash: hash of the object literal
built from the listed agent fields, the resolved instructions (falling back
to the inline field) and the avatar filepath (falling back to the inline
icon), in the literal's key order. -/
def calculateAgentConfigHash (c : AgentConfig) (instructions avatar : Jval) : String :=
  calculateHash (.obj
    [("id", .str c.id),
     ("name", .str c.name),
     ("description", c.description),
     ("instructions", jsOr instructions c.instructions),
     ("provider", .str c.provider),
     ("model", .str c.model),
     ("category", c.category),
     ("model_parameters", c.model_parameters),
     ("recursion_limit", c.recursion_limit),
     ("tools", c.tools),
     ("tool_resources", c.tool_resources),
     ("avatar_filepath", jsOr (objGet avatar "filepath") c.icon)])

/-- Whitespace test for the trim model (space, tab, newline, carriage return). -/
def isWs (c : Char) : Bool := c = ' ' || c = '\t' || c = '\n' || c = '\r'

/-- Model of JS String.prototype.trim. -/
def jsTrim (s : String) : String :=
  ⟨((s.data.dropWhile isWs).reverse.dropWhile isWs).reverse⟩

/-- Result shape shared by the validators that return a valid flag and a
single error message; error is "" in the valid case. -/
structure ValidationR where
  valid : Bool
  error : String
deriving DecidableEq

/-- Model of validateConfigFile.validateInstructions: must be a string,
non-empty after trimming, and at most maxLength characters. JS measures
length in UTF-16 units; character count coincides for the inputs considered
here. -/
def validateInstructions (instructions : Jval) (maxLength : Nat := 10000) : ValidationR :=
  match instructions with
  | .str s =>
    if (jsTrim s).length == 0 then ⟨false, "Instructions cannot be empty"⟩
    else if s.length > maxLength then
      ⟨false, "Instructions too long: " ++ toString s.length ++ " characters (max: " ++
        toString maxLength ++ ")"⟩
    else ⟨true, ""⟩
  | _ => ⟨false, "Instructions must be a string"⟩

/-- Membership of a dynamic value in the validAuthTypes list; Array.includes
uses strict equality, so only the three exact strings match. -/
def isValidAuthType (t : Jval) : Bool :=
  match t with
  | .str s => ["service_http", "oauth", "none"].contains s
  | _ => false

/-- Model of validateConfigFile.validateActionConfig. -/
def validateActionConfig (c : ActionConfig) : List String :=
  (if c.domain == "" then ["Missing required field: domain"] else []) ++
  (if !truthy c.spec && !truthy c.specFile then ["Action must have either spec or specFile"]
   else []) ++
  (if truthy c.auth then
    (if !truthy (objGet c.auth "type") then ["Auth configuration must have a type"] else []) ++
    (if truthy (objGet c.auth "type") && !isValidAuthType (objGet c.auth "type") then
      ["Invalid auth type: " ++ jsToString (objGet c.auth "type")] else []) ++
    (if strictEqStr (objGet c.auth "type") "oauth" then
      (if !truthy (objGet c.auth "client_url") then ["OAuth auth requires client_url"] else []) ++
      (if !truthy (objGet c.auth "authorization_url") then
        ["OAuth auth requires authorization_url"] else [])
     else [])
   else [])

/-- Model of validateConfigFile.validateAgentConfig: aggregate the required
string fields, the instructions-source requirement, and each nested action's
errors prefixed with its index. -/
def validateAgentConfig (c : AgentConfig) : List String :=
  (if c.id == "" then ["Missing required field: id"] else []) ++
  (if c.name == "" then ["Missing required field: name"] else []) ++
  (if c.provider == "" then ["Missing required field: provider"] else []) ++
  (if c.model == "" then ["Missing required field: model"] else []) ++
  (if !truthy c.instructions && !truthy c.instructionsFile then
    ["Agent must have either instructions or instructionsFile"] else []) ++
  (match c.actions with
   | some acts =>
     (acts.enum.filterMap (fun ai =>
       match validateActionConfig ai.2 with
       | [] => none
       | errs => some ("Action " ++ toString ai.1 ++ ": " ++ String.intercalate ", " errs)))
   | none => [])

end DefaultAgents

namespace DefaultAgents

/-- POSIX absolute-path test (path.isAbsolute). -/
def isAbsolutePath (s : String) : Bool :=
  match s.data with
  | '/' :: _ => true
  | _ => false

/-- Split a character list at '/' separators. -/
def splitSlash : List Char → List Char → List String
  | acc, [] => [⟨acc.reverse⟩]
  | acc, '/' :: rest => (⟨acc.reverse⟩ : String) :: splitSlash [] rest
  | acc, c :: rest => splitSlash (c :: acc) rest

def pathSegments (s : String) : List String := splitSlash [] s.data

/-- Path normalization as done by path.resolve: drop empty and "." segments,
let ".." pop the previous segment (stopping at the root). -/
def normalizeSegments (segs : List String) : List String :=
  segs.foldl
    (fun acc seg =>
      if seg = "" || seg = "." then acc
      else if seg = ".." then acc.dropLast
      else acc ++ [seg])
    []

def renderAbsolute (segs : List String) : String :=
  "/" ++ String.intercalate "/" segs

/-- path.resolve(p) with one argument: resolve against the working directory. -/
def pathResolveOne (cwd p : String) : String :=
  if isAbsolutePath p then renderAbsolute (normalizeSegments (pathSegments p))
  else renderAbsolute (normalizeSegments (pathSegments (cwd ++ "/" ++ p)))

/-- path.resolve(base, p): rightmost absolute segment wins, otherwise resolve
against base, otherwise against the working directory. -/
def pathResolveTwo (cwd base p : String) : String :=
  if isAbsolutePath p then renderAbsolute (normalizeSegments (pathSegments p))
  else if isAbsolutePath base then
    renderAbsolute (normalizeSegments (pathSegments (base ++ "/" ++ p)))
  else renderAbsolute (normalizeSegments (pathSegments (cwd ++ "/" ++ base ++ "/" ++ p)))

/-- path.dirname of an absolute path: drop the final segment. -/
def pathDirname (cwd p : String) : String :=
  renderAbsolute ((normalizeSegments (pathSegments (pathResolveOne cwd p))).dropLast)

/-- String.prototype.startsWith, over character lists. -/
def charsLead : List Char → List Char → Bool
  | [], _ => true
  | _ :: _, [] => false
  | p :: ps, c :: cs => p == c && charsLead ps cs

def jsStartsWith (s pre : String) : Bool := charsLead pre.data s.data

/-- path.extname: the extension of the final segment including its dot, or ""
when the segment has no dot after its first character. -/
def pathExtname (p : String) : String :=
  let base := (pathSegments p).getLastD ""
  let rev := base.data.reverse
  let tail := rev.takeWhile (fun c => c != '.')
  if tail.length = rev.length then ""
  else if tail.length + 1 = rev.length then ""
  else ⟨'.' :: tail.reverse⟩

def toLowerStr (s : String) : String := ⟨s.data.map Char.toLower⟩

/-- External collaborators and injectable failures for the model: process
environment variables, the working directory, a read-only filesystem keyed by
resolved path, the js-yaml and JSON parsers, the encryption primitive and
encodeURIComponent, the avatar pipeline behind processIconFile, and failure
switches for the persistence calls the cleanup phase makes. -/
structure Env where
  defaultObjectIdVar : Option String
  configPathVar : Option String
  cwd : String
  fs : String → Option String
  yamlParse : Jval → Except String Jval
  jsonParse : Jval → Except String Jval
  encryptV2 : String → String
  encodeURIComponentF : String → String
  processIcon : String → String → Except String Jval
  findAgentsFail : Option String
  deleteAgentFail : String → Option String
  deleteActionFail : String → Option String

/-- The config directory used for relative resolution: the directory of
CONFIG_PATH when that variable is set (non-empty), else the working
directory. -/
def configDir (env : Env) : String :=
  match env.configPathVar with
  | some p => if p = "" then env.cwd else pathDirname env.cwd (pathResolveOne env.cwd p)
  | none => env.cwd

/-- Model of loadConfigFile.resolveConfigFilePath. -/
def resolveConfigFilePath (env : Env) (filePath : String) : String :=
  if isAbsolutePath filePath then filePath
  else pathResolveTwo env.cwd (configDir env) filePath

/-- Model of loadConfigFile.validateFilePath: resolve both arguments, let
absolute inputs through, and reject relative inputs whose resolution leaves
the base directory. -/
def validateFilePath (env : Env) (filePath baseDir : String) : Except String Unit :=
  let resolvedPath := pathResolveOne env.cwd filePath
  let resolvedBase := pathResolveOne env.cwd baseDir
  if isAbsolutePath filePath then .ok ()
  else if !(jsStartsWith resolvedPath resolvedBase) then
    .error ("Path traversal detected: " ++ filePath ++
      " attempts to access files outside base directory")
  else .ok ()

/-- The resolve-and-validate opening of loadConfigFile (lines 65-78): resolve
the path, and for relative inputs run validateFilePath on the resolved path
against the config directory. Returns the resolved path on success. -/
def loadConfigFilePathCheck (env : Env) (filePath : String) : Except String String :=
  let resolvedPath := resolveConfigFilePath env filePath
  if !(isAbsolutePath filePath) then
    match validateFilePath env resolvedPath (configDir env) with
    | .ok _ => .ok resolvedPath
    | .error e => .error e
  else .ok resolvedPath

/-- Model of loadConfigFile: path checks, existence check, extension-based
type detection, then raw read (binary/text) or parse (yaml/json); every
failure is wrapped in the outer catch's message. -/
def loadConfigFile (env : Env) (filePath : String) (fileType : String := "auto") :
    Except String Jval :=
  let core : Except String Jval :=
    match loadConfigFilePathCheck env filePath with
    | .error e => .error e
    | .ok resolvedPath =>
      match env.fs resolvedPath with
      | none => .error ("File not found: " ++ resolvedPath)
      | some fileContent =>
        let ext := toLowerStr (pathExtname resolvedPath)
        let detectedType :=
          if fileType = "auto" then
            if ext = ".yaml" || ext = ".yml" then "yaml"
            else if ext = ".json" then "json"
            else "text"
          else fileType
        if detectedType = "binary" then .ok (.str fileContent)
        else if detectedType = "yaml" then env.yamlParse (.str fileContent)
        else if detectedType = "json" then env.jsonParse (.str fileContent)
        else .ok (.str fileContent)
  match core with
  | .ok v => .ok v
  | .error e => .error ("Failed to load config file " ++ filePath ++ ": " ++ e)

/-- Result shape of the parse validators: valid flag, message, parsed value. -/
structure ParseR where
  valid : Bool
  error : String
  parsed : Jval

/-- Model of validateConfigFile.validateYAML (js-yaml supplied by Env). -/
def validateYAML (env : Env) (content : Jval) : ParseR :=
  match env.yamlParse content with
  | .ok v => ⟨true, "", v⟩
  | .error e => ⟨false, "Invalid YAML: " ++ e, .undef⟩

/-- Model of validateConfigFile.validateJSON (JSON.parse supplied by Env). -/
def validateJSON (env : Env) (content : Jval) : ParseR :=
  match env.jsonParse content with
  | .ok v => ⟨true, "", v⟩
  | .error e => ⟨false, "Invalid JSON: " ++ e, .undef⟩

/-- Model of validateConfigFile.validateOpenAPISpec: an object with an
openapi/swagger version, an info field, and paths or components. -/
def validateOpenAPISpec (spec : Jval) : ValidationR :=
  if !truthy spec then ⟨false, "OpenAPI spec must be an object"⟩
  else
    match spec with
    | .obj _ | .arr _ =>
      if !truthy (jsOr (objGet spec "openapi") (objGet spec "swagger")) then
        ⟨false, "Missing openapi or swagger version field"⟩
      else if !truthy (objGet spec "info") then ⟨false, "Missing required field: info"⟩
      else if !truthy (objGet spec "paths") && !truthy (objGet spec "components") then
        ⟨false, "Spec must have either paths or components"⟩
      else ⟨true, ""⟩
    | _ => ⟨false, "OpenAPI spec must be an object"⟩

/-- Result shape of validateActionSpec. -/
structure SpecR where
  valid : Bool
  error : String
  parsed : Jval
  format : String

/-- Model of validateConfigFile.validateActionSpec: parse (YAML first in auto
mode, then JSON), then validate the parsed value as an OpenAPI spec. -/
def validateActionSpec (env : Env) (specContent : Jval) (format : String := "auto") : SpecR :=
  let step : Except (SpecR) (Jval × String) :=
    if format = "auto" then
      let yamlResult := validateYAML env specContent
      if yamlResult.valid then .ok (yamlResult.parsed, "yaml")
      else
        let jsonResult := validateJSON env specContent
        if jsonResult.valid then .ok (jsonResult.parsed, "json")
        else .error ⟨false, "Invalid spec format. YAML error: " ++ yamlResult.error ++
          ". JSON error: " ++ jsonResult.error, .undef, ""⟩
    else if format = "yaml" then
      let yamlResult := validateYAML env specContent
      if yamlResult.valid then .ok (yamlResult.parsed, "yaml")
      else .error ⟨false, yamlResult.error, .undef, ""⟩
    else if format = "json" then
      let jsonResult := validateJSON env specContent
      if jsonResult.valid then .ok (jsonResult.parsed, "json")
      else .error ⟨false, jsonResult.error, .undef, ""⟩
    else .error ⟨false, "Unknown format: " ++ format, .undef, ""⟩
  match step with
  | .error r => r
  | .ok (parsed, detectedFormat) =>
    let openAPIResult := validateOpenAPISpec parsed
    if !openAPIResult.valid then ⟨false, openAPIResult.error, .undef, ""⟩
    else ⟨true, "", parsed, detectedFormat⟩

/-- Property assignment on a dynamic value (no-op on non-objects). -/
def objSet (v : Jval) (k : String) (value : Jval) : Jval :=
  match v with
  | .obj fields => .obj (fieldsSet fields k value)
  | _ => v

/-- Model of ActionService.encryptSensitiveValue: encodeURIComponent then
encryptV2 (both collaborator-supplied). -/
def encryptSensitiveValue (env : Env) (value : Jval) : String :=
  env.encryptV2 (env.encodeURIComponentF (jsToString value))

/-- Model of ActionService.encryptMetadata: guards on metadata.auth and its
type, then encrypts the present credential fields in a shallow copy. -/
def encryptMetadata (env : Env) (metadata : Jval) : Jval :=
  let auth := objGet metadata "auth"
  if truthy auth && strictEqStr (objGet auth "type") "service_http" then
    if truthy (objGet metadata "api_key") then
      objSet metadata "api_key" (.str (encryptSensitiveValue env (objGet metadata "api_key")))
    else metadata
  else if truthy auth && strictEqStr (objGet auth "type") "oauth" then
    let step1 :=
      if truthy (objGet metadata "oauth_client_id") then
        objSet metadata "oauth_client_id"
          (.str (encryptSensitiveValue env (objGet metadata "oauth_client_id")))
      else metadata
    if truthy (objGet metadata "oauth_client_secret") then
      objSet step1 "oauth_client_secret"
        (.str (encryptSensitiveValue env (objGet metadata "oauth_client_secret")))
    else step1
  else metadata

end DefaultAgents

namespace DefaultAgents

/-- Persisted agent record. Modelled from the spec: the persistence layer
(models/Agent) is an out-of-scope collaborator; a record holds the agent's
semantic fields plus an ordered versions list whose entries carry the
version_metadata.configHash the engine stores and reads. -/
structure Version where
  configHash : Option String
deriving DecidableEq

structure AgentRecord where
  id : String
  author : String
  name : Jval
  description : Jval
  instructions : Jval
  avatar : Jval
  provider : Jval
  model : Jval
  category : Jval
  model_parameters : Jval
  recursion_limit : Jval
  tools : Jval
  tool_resources : Jval
  actions : List String
  versions : List Version

/-- Persisted action record. Modelled from the spec: identified by
(action_id, user); holds its owning agent id and the (encrypted) metadata. -/
structure ActionRecord where
  action_id : String
  user : String
  agent_id : String
  rtype : String
  metadata : Jval

structure Store where
  agents : List AgentRecord
  actions : List ActionRecord

/-- Log of persistence write calls, used to state write-count properties:
ids passed to createAgent, updateAgent and updateAction, and ids whose
deleteAgent/deleteAction calls succeeded. -/
structure Ops where
  createdAgents : List String
  updatedAgents : List String
  upsertedActions : List String
  deletedAgents : List String
  deletedActions : List String
deriving DecidableEq

def emptyOps : Ops := ⟨[], [], [], [], []⟩

/-- The mutable world threaded through the engine: the store plus the log. -/
structure World where
  store : Store
  ops : Ops

/-- Modelled from the spec: getAgent keyed by id and owner. -/
def getAgent (st : Store) (id author : String) : Option AgentRecord :=
  st.agents.find? (fun a => a.id == id && a.author == author)

/-- Modelled from the spec: createAgent appends the new record. -/
def createAgentOp (w : World) (record : AgentRecord) : World :=
  { store := { w.store with agents := w.store.agents ++ [record] },
    ops := { w.ops with createdAgents := w.ops.createdAgents ++ [record.id] } }

/-- The partial field set passed to updateAgent; absent fields are left
untouched. configHashOpt models fields.version_metadata.configHash. -/
structure AgentUpdate where
  nameOpt : Option Jval := none
  descriptionOpt : Option Jval := none
  instructionsOpt : Option Jval := none
  avatarOpt : Option Jval := none
  providerOpt : Option Jval := none
  modelOpt : Option Jval := none
  categoryOpt : Option Jval := none
  model_parametersOpt : Option Jval := none
  recursion_limitOpt : Option Jval := none
  toolsOpt : Option Jval := none
  tool_resourcesOpt : Option Jval := none
  actionsOpt : Option (List String) := none
  configHashOpt : Option String := none

/-- Apply an update to one record; when version_metadata.configHash is
supplied a new version carrying it is appended (spec section 3: updates
append a version carrying the hash; the action-id-only update in sync step 6
passes no version_metadata). -/
def applyAgentUpdate (a : AgentRecord) (u : AgentUpdate) : AgentRecord :=
  { a with
    name := u.nameOpt.getD a.name,
    description := u.descriptionOpt.getD a.description,
    instructions := u.instructionsOpt.getD a.instructions,
    avatar := u.avatarOpt.getD a.avatar,
    provider := u.providerOpt.getD a.provider,
    model := u.modelOpt.getD a.model,
    category := u.categoryOpt.getD a.category,
    model_parameters := u.model_parametersOpt.getD a.model_parameters,
    recursion_limit := u.recursion_limitOpt.getD a.recursion_limit,
    tools := u.toolsOpt.getD a.tools,
    tool_resources := u.tool_resourcesOpt.getD a.tool_resources,
    actions := u.actionsOpt.getD a.actions,
    versions :=
      match u.configHashOpt with
      | some h => a.versions ++ [⟨some h⟩]
      | none => a.versions }

def updateAgentsList (id : String) (u : AgentUpdate) :
    List AgentRecord → Option AgentRecord × List AgentRecord
  | [] => (none, [])
  | a :: rest =>
    if a.id == id then (some (applyAgentUpdate a u), applyAgentUpdate a u :: rest)
    else
      let (found, rest1) := updateAgentsList id u rest
      (found, a :: rest1)

/-- Modelled from the spec: updateAgent(selector, fields) updates the first
record matching the id selector and returns it (none models the null
findOneAndUpdate returns when nothing matches). -/
def updateAgentOp (w : World) (id : String) (u : AgentUpdate) :
    Option AgentRecord × World :=
  let (found, agents1) := updateAgentsList id u w.store.agents
  (found,
   { store := { w.store with agents := agents1 },
     ops := { w.ops with updatedAgents := w.ops.updatedAgents ++ [id] } })

def upsertActionsList (aid user : String) (data : ActionRecord) :
    List ActionRecord → List ActionRecord
  | [] => [data]
  | a :: rest =>
    if a.action_id == aid && a.user == user then data :: rest
    else a :: upsertActionsList aid user data rest

/-- Modelled from the spec: updateAction upserts by (action_id, user) and
returns the updated document. -/
def updateActionOp (w : World) (aid user : String) (data : ActionRecord) :
    ActionRecord × World :=
  (data,
   { store := { w.store with actions := upsertActionsList aid user data w.store.actions },
     ops := { w.ops with upsertedActions := w.ops.upsertedActions ++ [aid] } })

/-- Modelled from the spec: deleteAgent keyed by (id, author); Env can make a
given id's deletion throw. -/
def deleteAgentOp (env : Env) (w : World) (id author : String) :
    Except String Unit × World :=
  match env.deleteAgentFail id with
  | some msg => (.error msg, w)
  | none =>
    (.ok (),
     { store := { w.store with
         agents := w.store.agents.filter (fun a => !(a.id == id && a.author == author)) },
       ops := { w.ops with deletedAgents := w.ops.deletedAgents ++ [id] } })

/-- Modelled from the spec: deleteAction keyed by (action_id, user); Env can
make a given action id's deletion throw. -/
def deleteActionOp (env : Env) (w : World) (aid user : String) :
    Except String Unit × World :=
  match env.deleteActionFail aid with
  | some msg => (.error msg, w)
  | none =>
    (.ok (),
     { store := { w.store with
         actions := w.store.actions.filter (fun a => !(a.action_id == aid && a.user == user)) },
       ops := { w.ops with deletedActions := w.ops.deletedActions ++ [aid] } })

/-- Modelled from the spec: listing all records of one owner (Agent.find by
author); Env can make the listing throw. -/
def findAgentsByAuthor (env : Env) (st : Store) (author : String) :
    Except String (List AgentRecord) :=
  match env.findAgentsFail with
  | some msg => .error msg
  | none => .ok (st.agents.filter (fun a => a.author == author))

/-- Model of sync.getDefaultObjectId: DEFAULT_OBJECT_ID or the all-zero id. -/
def getDefaultObjectId (env : Env) : String :=
  match env.defaultObjectIdVar with
  | some s => if s = "" then "000000000000000000000000" else s
  | none => "000000000000000000000000"

/-- Model of sync.loadAgentFileContent: resolve instructions (file beats
inline, each validated) and then the avatar (icon file through the avatar
pipeline, else inline icon data); either failure aborts. -/
def loadAgentFileContent (env : Env) (c : AgentConfig) : Except String (Jval × Jval) :=
  let instrStep : Except String Jval :=
    if truthy c.instructionsFile then
      match loadConfigFile env (jsToString c.instructionsFile) "text" with
      | .error e => .error e
      | .ok content =>
        let validation := validateInstructions content
        if !validation.valid then .error ("Invalid instructions: " ++ validation.error)
        else .ok content
    else if truthy c.instructions then
      let validation := validateInstructions c.instructions
      if !validation.valid then .error ("Invalid inline instructions: " ++ validation.error)
      else .ok c.instructions
    else .ok .undef
  match instrStep with
  | .error e => .error e
  | .ok instructions =>
    let avatarStep : Except String Jval :=
      if truthy c.iconFile then env.processIcon (jsToString c.iconFile) c.id
      else if truthy c.icon then .ok (.obj [("filepath", c.icon), ("source", .str "inline")])
      else .ok .undef
    match avatarStep with
    | .error e => .error e
    | .ok avatar => .ok (instructions, avatar)

/-- Model of sync.loadActionSpec: load the spec from its file (stringifying a
parsed object) or take the inline spec, validating either; absence of both is
an error. -/
def loadActionSpec (env : Env) (ac : ActionConfig) : Except String Jval :=
  if truthy ac.specFile then
    match loadConfigFile env (jsToString ac.specFile) "auto" with
    | .error e => .error e
    | .ok content =>
      let spec : Jval :=
        match content with
        | .obj _ | .arr _ | .null => .str (jsonStringify content)
        | v => v
      let validation := validateActionSpec env spec
      if !validation.valid then .error ("Invalid action spec: " ++ validation.error)
      else .ok spec
  else if truthy ac.spec then
    let validation := validateActionSpec env ac.spec
    if !validation.valid then .error ("Invalid inline action spec: " ++ validation.error)
    else .ok ac.spec
  else .error ("Action " ++ ac.domain ++ " must have either spec or specFile")

/-- The loop body of sync.syncActions over the declared actions: per action,
load and validate the spec, derive the deterministic action id, build the
metadata object (domain, raw_spec, optional privacy_policy_url, then the
spread auth fields), encrypt, and upsert; the first failure rethrows,
keeping the upserts already performed. -/
def syncActionsLoop (env : Env) (agentId oid : String) :
    List ActionConfig → List ActionRecord → World →
    Except String (List ActionRecord) × World
  | [], acc, w => (.ok acc, w)
  | ac :: rest, acc, w =>
    match loadActionSpec env ac with
    | .error e => (.error e, w)
    | .ok spec =>
      let actionId := generateActionId ac.domain agentId
      let metadata0 : List (String × Jval) := [("domain", .str ac.domain), ("raw_spec", spec)]
      let metadata1 :=
        if truthy ac.privacy_policy_url then
          fieldsSet metadata0 "privacy_policy_url" ac.privacy_policy_url
        else metadata0
      let metadata : Jval :=
        .obj (if truthy ac.auth then fieldsAssign metadata1 ac.auth else metadata1)
      let encryptedMetadata := encryptMetadata env metadata
      let actionData : ActionRecord :=
        ⟨actionId, oid, agentId, "action_prototype", encryptedMetadata⟩
      let (action, w1) := updateActionOp w actionId oid actionData
      syncActionsLoop env agentId oid rest (acc ++ [action]) w1

/-- Model of sync.syncActions. -/
def syncActions (env : Env) (agentId : String) (actionsConfig : Option (List ActionConfig))
    (oid : String) (w : World) : Except String (List ActionRecord) × World :=
  match actionsConfig with
  | none => (.ok [], w)
  | some [] => (.ok [], w)
  | some acts => syncActionsLoop env agentId oid acts [] w

/-- Model of sync.createDefaultAgent: build the record (category defaulting
to general, tools to an empty list, actions empty until step 6) with a first
version carrying the config hash. -/
def createDefaultAgent (c : AgentConfig) (instructions avatar : Jval)
    (oid : String) (w : World) : AgentRecord × World :=
  let configHash := calculateAgentConfigHash c instructions avatar
  let record : AgentRecord :=
    { id := c.id, author := oid, name := .str c.name, description := c.description,
      instructions := instructions, avatar := avatar, provider := .str c.provider,
      model := .str c.model, category := jsOr c.category (.str "general"),
      model_parameters := c.model_parameters, recursion_limit := c.recursion_limit,
      tools := jsOr c.tools (.arr []), tool_resources := c.tool_resources,
      actions := [], versions := [⟨some configHash⟩] }
  (record, createAgentOp w record)

/-- Model of sync.updateDefaultAgent: update the mutable fields and store the
new config hash in version_metadata. -/
def updateDefaultAgent (existing : AgentRecord) (c : AgentConfig)
    (instructions avatar : Jval) (_oid : String) (w : World) :
    Option AgentRecord × World :=
  let configHash := calculateAgentConfigHash c instructions avatar
  updateAgentOp w existing.id
    { nameOpt := some (.str c.name), descriptionOpt := some c.description,
      instructionsOpt := some instructions, avatarOpt := some avatar,
      providerOpt := some (.str c.provider), modelOpt := some (.str c.model),
      categoryOpt := some (jsOr c.category (.str "general")),
      model_parametersOpt := some c.model_parameters,
      recursion_limitOpt := some c.recursion_limit,
      toolsOpt := some (jsOr c.tools (.arr [])),
      tool_resourcesOpt := some c.tool_resources,
      configHashOpt := some configHash }

/-- The store-independent opening of sync.syncAgent (steps 1 and 2): validate
the declaration, then resolve its file-based content; neither step touches
the persistence layer. -/
def syncAgentPrecheck (env : Env) (c : AgentConfig) : Except String (Jval × Jval) :=
  let validation := validateAgentConfig c
  if validation ≠ [] then
    .error ("Invalid agent configuration: " ++ String.intercalate ", " validation)
  else loadAgentFileContent env c

/-- Model of sync.syncAgent: validate, resolve file content, hash, then skip,
update or create by hash comparison against the latest stored version; then
reconcile actions, and only when at least one action came back, rewrite the
record's action-id list. -/
def syncAgent (env : Env) (oid : String) (c : AgentConfig) (w : World) :
    Except String AgentRecord × World :=
  match syncAgentPrecheck env c with
  | .error e => (.error e, w)
  | .ok (instructions, avatar) =>
    let newConfigHash := calculateAgentConfigHash c instructions avatar
    let step4 : Except String AgentRecord × World :=
        match getAgent w.store c.id oid with
        | some existingAgent =>
          let existingHash : Option String :=
            existingAgent.versions.getLast?.bind (fun v => v.configHash)
          let unchanged :=
            match existingHash with
            | some h => h != "" && hashesEqual h newConfigHash
            | none => false
          if unchanged then (.ok existingAgent, w)
          else
            match updateDefaultAgent existingAgent c instructions avatar oid w with
            | (some updated, w1) => (.ok updated, w1)
            | (none, w1) => (.error "updateAgent returned null", w1)
        | none =>
          let (created, w1) := createDefaultAgent c instructions avatar oid w
          (.ok created, w1)
      match step4 with
      | (.error e, w1) => (.error e, w1)
      | (.ok agent, w1) =>
        match syncActions env c.id c.actions oid w1 with
        | (.error e, w2) => (.error e, w2)
        | (.ok actions, w2) =>
          if actions.length > 0 then
            let actionIds := actions.map (fun a => a.action_id)
            match updateAgentOp w2 agent.id { actionsOpt := some actionIds } with
            | (some updated, w3) => (.ok updated, w3)
            | (none, w3) => (.error "updateAgent returned null", w3)
          else (.ok agent, w2)

/-- Inner deletion loop over one orphan's action ids; the first failure
rethrows (remaining action deletions of the same orphan are skipped). -/
def deleteActionsLoop (env : Env) (oid : String) :
    List String → World → Except String Unit × World
  | [], w => (.ok (), w)
  | aid :: rest, w =>
    match deleteActionOp env w aid oid with
    | (.error e, w1) => (.error e, w1)
    | (.ok _, w1) => deleteActionsLoop env oid rest w1

/-- Per-orphan loop of sync.cleanupRemovedAgents: delete the orphan's actions
then the orphan, catching any failure so the remaining orphans are still
attempted. -/
def cleanupLoop (env : Env) (oid : String) : List AgentRecord → World → World
  | [], w => w
  | agent :: rest, w =>
    let attempt : Except String Unit × World :=
      match deleteActionsLoop env oid agent.actions w with
      | (.error e, w1) => (.error e, w1)
      | (.ok _, w1) => deleteAgentOp env w1 agent.id oid
    cleanupLoop env oid rest attempt.2

/-- Model of sync.cleanupRemovedAgents: list the system-owned agents (a
listing failure rethrows), filter to the ids no longer declared, attempt each
orphan's deletion independently, and return the length of the orphan list. -/
def cleanupRemovedAgents (env : Env) (configuredAgentIds : List String) (oid : String)
    (w : World) : Except String Nat × World :=
  match findAgentsByAuthor env w.store oid with
  | .error e => (.error e, w)
  | .ok allDefaultAgents =>
    let removedAgents :=
      allDefaultAgents.filter (fun a => !configuredAgentIds.contains a.id)
    if removedAgents.length = 0 then (.ok 0, w)
    else (.ok removedAgents.length, cleanupLoop env oid removedAgents w)

/-- One entry of SyncResult.errors: the per-agent entries pushed by the agent
loop (carrying the agent's id, name and message; the stack field is not
modelled) and the sync_failure entry pushed by the outer catch. -/
inductive ErrEntry where
  | agentErr (agentId agentName message : String)
  | syncFailure (message : String)
deriving DecidableEq

/-- The agent loop of sync.syncDefaultAgents: count successes, record an
error entry per failure, and always continue with the next declared agent. -/
def syncAgentsLoop (env : Env) (oid : String) :
    List AgentConfig → World → (Nat × List ErrEntry) × World
  | [], w => ((0, []), w)
  | c :: rest, w =>
    match syncAgent env oid c w with
    | (.ok _, w1) =>
      let ((n, es), w2) := syncAgentsLoop env oid rest w1
      ((n + 1, es), w2)
    | (.error e, w1) =>
      let ((n, es), w2) := syncAgentsLoop env oid rest w1
      ((n, .agentErr c.id c.name e :: es), w2)

structure SyncResult where
  success : Bool
  syncedCount : Nat
  removedCount : Nat
  errors : List ErrEntry
deriving DecidableEq

/-- Model of sync.syncDefaultAgents: empty or missing declaration list is an
immediate all-zero success; otherwise run the agent loop, then cleanup with
the full declared-id list; a cleanup throw reaches the outer catch, which
flips success and appends a sync_failure entry while keeping removedCount at
its initial zero. -/
def syncDefaultAgents (env : Env) (config : Option (List AgentConfig)) (w : World) :
    SyncResult × World :=
  let oid := getDefaultObjectId env
  match config with
  | none => (⟨true, 0, 0, []⟩, w)
  | some [] => (⟨true, 0, 0, []⟩, w)
  | some defaultAgents =>
    let ((syncedCount, errors), w1) := syncAgentsLoop env oid defaultAgents w
    let configuredAgentIds := defaultAgents.map (fun a => a.id)
    match cleanupRemovedAgents env configuredAgentIds oid w1 with
    | (.ok removedCount, w2) => (⟨errors.isEmpty, syncedCount, removedCount, errors⟩, w2)
    | (.error e, w2) => (⟨false, syncedCount, 0, errors ++ [.syncFailure e]⟩, w2)

end DefaultAgents

namespace DefaultAgents

/-- Strict key order on object entries; on entry lists with pairwise-distinct
keys a sorted order is unique, which drives the hash-determinism proof. -/
def entryLt (p q : String × Jval) : Prop := entryLe p q ∧ p.1 ≠ q.1

/-- Two dynamic values that are semantically equal up to the ordering of
object keys, at any nesting depth: reflexivity, reordering the entries of an
object with pairwise-distinct keys, entrywise congruence for objects and
arrays (arrays keep their element order), and transitivity. -/
inductive KeyPerm : Jval → Jval → Prop
  | refl (v : Jval) : KeyPerm v v
  | permKeys (l1 l2 : List (String × Jval)) :
      (l1.map Prod.fst).Nodup → l1.Perm l2 → KeyPerm (.obj l1) (.obj l2)
  | objCongr (ps : List (String × Jval × Jval)) :
      (∀ p ∈ ps, KeyPerm p.2.1 p.2.2) →
      KeyPerm (.obj (ps.map fun p => (p.1, p.2.1))) (.obj (ps.map fun p => (p.1, p.2.2)))
  | arrCongr (ps : List (Jval × Jval)) :
      (∀ p ∈ ps, KeyPerm p.1 p.2) →
      KeyPerm (.arr (ps.map Prod.fst)) (.arr (ps.map Prod.snd))
  | trans (a b c : Jval) : KeyPerm a b → KeyPerm b c → KeyPerm a c

/-- Concrete OpenAPI document that the fixture environment's YAML parser
returns for the fixture spec text. -/
def fxDemoSpecParsed : Jval :=
  .obj [("openapi", .str "3.0.0"), ("info", .obj [("title", .str "Demo")]),
        ("paths", .obj [("/ping", .obj [])])]

/-- Fixture environment: no environment variables, working directory
/base/dir, empty filesystem, a YAML parser recognizing exactly the fixture
spec text, a tagging encryption primitive, and no injected store failures. -/
def fxEnv : Env :=
  { defaultObjectIdVar := none, configPathVar := none, cwd := "/base/dir",
    fs := fun _ => none,
    yamlParse := fun v =>
      match v with
      | .str s => if s = "demo-openapi-spec" then .ok fxDemoSpecParsed
                  else .error "unexpected token"
      | _ => .error "expected a string",
    jsonParse := fun _ => .error "unexpected token",
    encryptV2 := fun s => "vault:" ++ s,
    encodeURIComponentF := fun s => s,
    processIcon := fun _ _ => .error "icon pipeline unavailable",
    findAgentsFail := none,
    deleteAgentFail := fun _ => none,
    deleteActionFail := fun _ => none }

def fxOid : String := getDefaultObjectId fxEnv

def fxWorld0 : World := ⟨⟨[], []⟩, emptyOps⟩

/-- A minimal valid agent declaration with inline instructions. -/
def fxAgent (id name : String) (acts : Option (List ActionConfig)) : AgentConfig :=
  { id := id, name := name, description := .undef, instructions := .str "Be kind.",
    instructionsFile := .undef, icon := .undef, iconFile := .undef,
    provider := "openai", model := "gpt-4o", category := .undef,
    model_parameters := .undef, recursion_limit := .undef, tools := .undef,
    tool_resources := .undef, actions := acts }

def fxOk1 : AgentConfig := fxAgent "ok1" "Support" none

def fxOk2 : AgentConfig := fxAgent "ok2" "Sales" none

/-- An agent declaration failing validation: its model field is empty. -/
def fxBroken : AgentConfig :=
  { fxAgent "broken" "Broken" none with model := "" }

/-- A declared action with the fixture inline spec. -/
def fxAction (domain : String) (auth : Jval) : ActionConfig :=
  { domain := domain, spec := .str "demo-openapi-spec", specFile := .undef,
    auth := auth, privacy_policy_url := .undef }

/-- A service_http auth block carrying a credential. -/
def fxAuthSvc : Jval :=
  .obj [("type", .str "service_http"), ("api_key", .str "secret-key")]

/-- An agent declaring one action, for the write-on-every-pass counterexample. -/
def fxActAgent : AgentConfig :=
  fxAgent "act1" "Acts" (some [fxAction "demo" .undef])

/-- Stored hash of the C5 fixture declaration (which declares no actions). -/
def fxC5cfg : AgentConfig := fxAgent "a5" "Five" (some [])

def fxC5hash : String := calculateAgentConfigHash fxC5cfg (.str "Be kind.") (.undef)

/-- A stored system-owned record for a5 whose latest version carries the
current hash and whose action-id list still holds a stale entry. -/
def fxC5record : AgentRecord :=
  { id := "a5", author := fxOid, name := .str "Five", description := .undef,
    instructions := .str "Be kind.", avatar := .undef, provider := .str "openai",
    model := .str "gpt-4o", category := .str "general", model_parameters := .undef,
    recursion_limit := .undef, tools := .arr [], tool_resources := .undef,
    actions := ["stale_action"], versions := [⟨some fxC5hash⟩] }

def fxC5world : World := ⟨⟨[fxC5record], []⟩, emptyOps⟩

/-- The C5 fixture declaration with one action instead of none. -/
def fxC5cfgWithAction : AgentConfig :=
  { fxC5cfg with actions := some [fxAction "demo" .undef] }

/-- A stored system-owned agent record that no declaration mentions. -/
def fxOrphan (id : String) (acts : List String) : AgentRecord :=
  { id := id, author := fxOid, name := .str id, description := .undef,
    instructions := .undef, avatar := .undef, provider := .str "openai",
    model := .str "gpt-4o", category := .str "general", model_parameters := .undef,
    recursion_limit := .undef, tools := .arr [], tool_resources := .undef,
    actions := acts, versions := [] }

/-- Environment in which deleting the first orphan throws. -/
def fxC8env : Env :=
  { fxEnv with deleteAgentFail := fun i => if i = "orph1" then some "delete refused" else none }

def fxC8world : World := ⟨⟨[fxOrphan "orph1" [], fxOrphan "orph2" []], []⟩, emptyOps⟩

/-- Environment in which listing the system-owned agents throws. -/
def fxC9env : Env :=
  { fxEnv with findAgentsFail := some "database unavailable" }

/-- Key-reordered nested objects for the hash determinism witness. -/
def fxMpA : Jval := .obj [("b", .num 1), ("a", .obj [("y", .num 2), ("x", .num 3)])]

def fxMpMid : Jval := .obj [("b", .num 1), ("a", .obj [("x", .num 3), ("y", .num 2)])]

def fxMpB : Jval := .obj [("a", .obj [("x", .num 3), ("y", .num 2)]), ("b", .num 1)]

end DefaultAgents


namespace DefaultAgents

theorem char_toNat_inj {a b : Char} (h : a.toNat = b.toNat) : a = b := by
  apply Char.eq_of_val_eq
  exact UInt32.ext h

theorem lexLeB_total : ∀ as bs : List Char, lexLeB as bs = true ∨ lexLeB bs as = true
  | [], _ => Or.inl rfl
  | _ :: _, [] => Or.inr rfl
  | a :: as, b :: bs => by
    rcases Nat.lt_trichotomy a.toNat b.toNat with h | h | h
    · left; simp [lexLeB, h]
    · have h1 : ¬ a.toNat < b.toNat := by omega
      have h2 : ¬ b.toNat < a.toNat := by omega
      rcases lexLeB_total as bs with ih | ih
      · left; simp [lexLeB, h1, h2, ih]
      · right; simp [lexLeB, h1, h2, ih]
    · right; simp [lexLeB, h]

theorem lexLeB_trans : ∀ as bs cs : List Char,
    lexLeB as bs = true → lexLeB bs cs = true → lexLeB as cs = true
  | [], _, _ => fun _ _ => rfl
  | _ :: _, [], _ => fun h _ => by simp [lexLeB] at h
  | _ :: _, _ :: _, [] => fun _ h => by simp [lexLeB] at h
  | a :: as, b :: bs, c :: cs => fun h1 h2 => by
    by_cases hab : a.toNat < b.toNat
    · by_cases hbc : b.toNat < c.toNat
      · simp [lexLeB, show a.toNat < c.toNat by omega]
      · by_cases hcb : c.toNat < b.toNat
        · simp [lexLeB, hbc, hcb] at h2
        · simp [lexLeB, show a.toNat < c.toNat by omega]
    · by_cases hba : b.toNat < a.toNat
      · simp [lexLeB, hab, hba] at h1
      · by_cases hbc : b.toNat < c.toNat
        · simp [lexLeB, show a.toNat < c.toNat by omega]
        · by_cases hcb : c.toNat < b.toNat
          · simp [lexLeB, hbc, hcb] at h2
          · simp [lexLeB, hab, hba] at h1
            simp [lexLeB, hbc, hcb] at h2
            simp [lexLeB, show ¬ a.toNat < c.toNat by omega,
              show ¬ c.toNat < a.toNat by omega]
            exact lexLeB_trans as bs cs h1 h2

theorem lexLeB_antisymm : ∀ as bs : List Char,
    lexLeB as bs = true → lexLeB bs as = true → as = bs
  | [], [] => fun _ _ => rfl
  | [], _ :: _ => fun _ h => by simp [lexLeB] at h
  | _ :: _, [] => fun h _ => by simp [lexLeB] at h
  | a :: as, b :: bs => fun h1 h2 => by
    by_cases hab : a.toNat < b.toNat <;> by_cases hba : b.toNat < a.toNat <;>
      simp [lexLeB, hab, hba] at h1 h2
    · omega
    · have hchar : a = b := char_toNat_inj (by omega)
      have hrest : as = bs := lexLeB_antisymm as bs h1 h2
      rw [hchar, hrest]

theorem string_data_inj {a b : String} (h : a.data = b.data) : a = b := by
  cases a; cases b; cases h; rfl

theorem strLeB_total (a b : String) : strLeB a b = true ∨ strLeB b a = true :=
  lexLeB_total a.data b.data

theorem strLeB_trans {a b c : String} (h1 : strLeB a b = true) (h2 : strLeB b c = true) :
    strLeB a c = true :=
  lexLeB_trans a.data b.data c.data h1 h2

theorem strLeB_antisymm {a b : String} (h1 : strLeB a b = true) (h2 : strLeB b a = true) :
    a = b :=
  string_data_inj (lexLeB_antisymm a.data b.data h1 h2)

instance : IsTotal (String × Jval) entryLe :=
  ⟨fun p q => strLeB_total p.1 q.1⟩

instance : IsTrans (String × Jval) entryLe :=
  ⟨fun _ _ _ h1 h2 => strLeB_trans h1 h2⟩

instance : IsAntisymm (String × Jval) entryLt :=
  ⟨fun _ _ h1 h2 => absurd (strLeB_antisymm h1.1 h2.1) h1.2⟩

theorem sortObjectFields_eq_map (l : List (String × Jval)) :
    sortObjectFields l = l.map (fun kv => (kv.1, sortObject kv.2)) := by
  induction l with
  | nil => rfl
  | cons kv rest ih => cases kv; simp [sortObjectFields, ih]

theorem sortObjectList_eq_map (l : List Jval) :
    sortObjectList l = l.map sortObject := by
  induction l with
  | nil => rfl
  | cons x rest ih => simp [sortObjectList, ih]

theorem insertionSort_entryLe_eq {l1 l2 : List (String × Jval)}
    (hperm : l1.Perm l2) (hnd : (l1.map Prod.fst).Nodup) :
    List.insertionSort entryLe l1 = List.insertionSort entryLe l2 := by
  have hp : (List.insertionSort entryLe l1).Perm (List.insertionSort entryLe l2) :=
    (List.perm_insertionSort entryLe l1).trans
      (hperm.trans (List.perm_insertionSort entryLe l2).symm)
  have hnd1 : ((List.insertionSort entryLe l1).map Prod.fst).Nodup :=
    (((List.perm_insertionSort entryLe l1).map Prod.fst).nodup_iff).mpr hnd
  have hnd2 : ((List.insertionSort entryLe l2).map Prod.fst).Nodup :=
    ((hp.map Prod.fst).nodup_iff).mp hnd1
  have hlt1 : List.Sorted entryLt (List.insertionSort entryLe l1) :=
    (List.sorted_insertionSort entryLe l1).and (List.pairwise_map.mp hnd1)
  have hlt2 : List.Sorted entryLt (List.insertionSort entryLe l2) :=
    (List.sorted_insertionSort entryLe l2).and (List.pairwise_map.mp hnd2)
  exact List.eq_of_perm_of_sorted hp hlt1 hlt2

theorem sortObject_eq_of_keyPerm {a b : Jval} (h : KeyPerm a b) :
    sortObject a = sortObject b := by
  induction h with
  | refl v => rfl
  | permKeys l1 l2 hnd hperm =>
    have hmapped : (sortObjectFields l1).Perm (sortObjectFields l2) := by
      rw [sortObjectFields_eq_map, sortObjectFields_eq_map]
      exact hperm.map _
    have hkeys : ((sortObjectFields l1).map Prod.fst).Nodup := by
      rw [sortObjectFields_eq_map, List.map_map]
      exact hnd
    simp only [sortObject]
    rw [insertionSort_entryLe_eq hmapped hkeys]
  | objCongr ps hmem ih =>
    have hfe : sortObjectFields (ps.map fun p => (p.1, p.2.1)) =
        sortObjectFields (ps.map fun p => (p.1, p.2.2)) := by
      rw [sortObjectFields_eq_map, sortObjectFields_eq_map, List.map_map, List.map_map]
      refine List.map_congr_left (fun p hp => ?_)
      simp only [Function.comp]
      rw [ih p hp]
    simp only [sortObject, hfe]
  | arrCongr ps hmem ih =>
    have hfe : sortObjectList (ps.map Prod.fst) = sortObjectList (ps.map Prod.snd) := by
      rw [sortObjectList_eq_map, sortObjectList_eq_map, List.map_map, List.map_map]
      refine List.map_congr_left (fun p hp => ?_)
      simp only [Function.comp]
      rw [ih p hp]
    simp only [sortObject, hfe]
  | trans a b c hab hbc ihab ihbc => exact ihab.trans ihbc

theorem calculateHash_eq_of_keyPerm {a b : Jval} (h : KeyPerm a b) :
    calculateHash a = calculateHash b := by
  unfold calculateHash
  rw [sortObject_eq_of_keyPerm h]

end DefaultAgents

namespace DefaultAgents

/-- C6: the agent config hash is invariant under reordering of object keys at
any nesting depth: (1) calculateHash maps KeyPerm-related values (section 4.1's
"recursively sort all mapping keys") to the same hex string; (2) in
particular two declarations differing only in the key order of their opaque
maps (model_parameters, tool_resources) hash identically for the same
resolved instructions and avatar; (3) arrays are order-sensitive: swapping
array elements changes the hash. -/
theorem claim_C6_hash_key_order_invariance :
    (∀ a b : Jval, KeyPerm a b → calculateHash a = calculateHash b) ∧
    (∀ (c : AgentConfig) (mp1 mp2 tr1 tr2 ins av : Jval),
      KeyPerm mp1 mp2 → KeyPerm tr1 tr2 →
      calculateAgentConfigHash { c with model_parameters := mp1, tool_resources := tr1 } ins av =
        calculateAgentConfigHash { c with model_parameters := mp2, tool_resources := tr2 } ins av) ∧
    (calculateHash (.arr [.num 1, .num 2]) == calculateHash (.arr [.num 2, .num 1])) = false := by
  refine ⟨fun a b h => calculateHash_eq_of_keyPerm h, fun c mp1 mp2 tr1 tr2 ins av hmp htr => ?_, by decide⟩
  apply calculateHash_eq_of_keyPerm
  have hcongr := KeyPerm.objCongr
    [("id", (.str c.id, .str c.id)), ("name", (.str c.name, .str c.name)),
     ("description", (c.description, c.description)),
     ("instructions", (jsOr ins c.instructions, jsOr ins c.instructions)),
     ("provider", (.str c.provider, .str c.provider)),
     ("model", (.str c.model, .str c.model)),
     ("category", (c.category, c.category)),
     ("model_parameters", (mp1, mp2)),
     ("recursion_limit", (c.recursion_limit, c.recursion_limit)),
     ("tools", (c.tools, c.tools)),
     ("tool_resources", (tr1, tr2)),
     ("avatar_filepath", (jsOr (objGet av "filepath") c.icon, jsOr (objGet av "filepath") c.icon))]
    (by
      intro p hp
      simp only [List.mem_cons, List.not_mem_nil, or_false] at hp
      rcases hp with rfl | rfl | rfl | rfl | rfl | rfl | rfl | rfl | rfl | rfl | rfl | rfl
      · exact KeyPerm.refl _
      · exact KeyPerm.refl _
      · exact KeyPerm.refl _
      · exact KeyPerm.refl _
      · exact KeyPerm.refl _
      · exact KeyPerm.refl _
      · exact KeyPerm.refl _
      · exact hmp
      · exact KeyPerm.refl _
      · exact KeyPerm.refl _
      · exact htr
      · exact KeyPerm.refl _)
  simpa using hcongr

/-- Witness for C6: a pair of concrete objects reordered at two nesting
depths hash identically, via the claim theorem. -/
theorem claim_C6_witness : calculateHash fxMpA = calculateHash fxMpB := by
  have hInner : KeyPerm (.obj [("y", .num 2), ("x", .num 3)])
      (.obj [("x", .num 3), ("y", .num 2)]) :=
    KeyPerm.permKeys _ _ (by decide) (List.Perm.swap _ _ _)
  have hMid : KeyPerm fxMpA fxMpMid := by
    have h := KeyPerm.objCongr
      [("b", (.num 1, .num 1)),
       ("a", (.obj [("y", .num 2), ("x", .num 3)], .obj [("x", .num 3), ("y", .num 2)]))]
      (by
        intro p hp
        simp only [List.mem_cons, List.not_mem_nil, or_false] at hp
        rcases hp with rfl | rfl
        · exact KeyPerm.refl _
        · exact hInner)
    simpa [fxMpA, fxMpMid] using h
  have hSwap : KeyPerm fxMpMid fxMpB :=
    KeyPerm.permKeys _ _ (by decide) (List.Perm.swap _ _ _)
  exact claim_C6_hash_key_order_invariance.1 fxMpA fxMpB (KeyPerm.trans _ _ _ hMid hSwap)

end DefaultAgents

namespace DefaultAgents

/-- C7: the agent config hash is a function of only the declaration fields
id, name, description, instructions, provider, model, category,
model_parameters, recursion_limit, tools, tool_resources and the inline icon
path, together with the resolved instructions and avatar arguments: (1) any
two declarations agreeing on those projections hash identically for the same
resolved content, whatever their other fields (actions included) are; (2) in
particular replacing only the actions field never changes the hash. -/
theorem claim_C7_hash_ignores_actions :
    (∀ (c1 c2 : AgentConfig) (ins av : Jval),
      c1.id = c2.id → c1.name = c2.name → c1.description = c2.description →
      c1.instructions = c2.instructions → c1.provider = c2.provider →
      c1.model = c2.model → c1.category = c2.category →
      c1.model_parameters = c2.model_parameters →
      c1.recursion_limit = c2.recursion_limit → c1.tools = c2.tools →
      c1.tool_resources = c2.tool_resources → c1.icon = c2.icon →
      calculateAgentConfigHash c1 ins av = calculateAgentConfigHash c2 ins av) ∧
    (∀ (c : AgentConfig) (acts : Option (List ActionConfig)) (ins av : Jval),
      calculateAgentConfigHash { c with actions := acts } ins av =
        calculateAgentConfigHash c ins av) := by
  constructor
  · intro c1 c2 ins av h1 h2 h3 h4 h5 h6 h7 h8 h9 h10 h11 h12
    unfold calculateAgentConfigHash
    rw [h1, h2, h3, h4, h5, h6, h7, h8, h9, h10, h11, h12]
  · intro c acts ins av
    rfl

/-- Witness for C7: a declaration with an action and the same declaration
without it hash identically. -/
theorem claim_C7_witness :
    calculateAgentConfigHash (fxAgent "c7" "Seven" (some [fxAction "demo" .undef]))
      (.str "Be kind.") .undef =
    calculateAgentConfigHash (fxAgent "c7" "Seven" none) (.str "Be kind.") .undef :=
  claim_C7_hash_ignores_actions.1
    (fxAgent "c7" "Seven" (some [fxAction "demo" .undef]))
    (fxAgent "c7" "Seven" none) (.str "Be kind.") .undef
    rfl rfl rfl rfl rfl rfl rfl rfl rfl rfl rfl rfl

end DefaultAgents

namespace DefaultAgents

/-- C10: the deterministic action id is the plain concatenation
domain + "_" + agentId, and the mapping is not injective: the distinct pairs
("a", "b_c") and ("a_b", "c") share the id "a_b_c", so syncing an action of
domain "a" for agent "b_c" and then an action of domain "a_b" for agent "c"
upserts the same (action_id, user) key: the store ends with a single
ActionRecord, now owned by the second agent — the first write was silently
overwritten. -/
theorem claim_C10_action_id_collision :
    (∀ domain agentId : String, generateActionId domain agentId = domain ++ "_" ++ agentId) ∧
    generateActionId "a" "b_c" = generateActionId "a_b" "c" ∧
    ((("a", "b_c") : String × String) == ("a_b", "c")) = false ∧
    (let w1 := (syncActions fxEnv "b_c" (some [fxAction "a" .undef]) fxOid fxWorld0).2
     let w2 := (syncActions fxEnv "c" (some [fxAction "a_b" .undef]) fxOid w1).2
     w2.store.actions.map (fun a => (a.action_id, a.agent_id)) = [("a_b_c", "c")] ∧
     w1.store.actions.map (fun a => (a.action_id, a.agent_id)) = [("a_b_c", "b_c")]) := by
  refine ⟨fun d a => rfl, rfl, by decide, by decide, by decide⟩

end DefaultAgents

namespace DefaultAgents

/-- C1 (code evaluated at the failing input): syncActions flattens the
declared auth fields into the metadata top level via Object.assign, so the
metadata it passes to encryptMetadata has no auth key; encryptMetadata's
guard reads metadata.auth, finds undefined, and leaves the object untouched
— hence the upserted ActionRecord for a service_http action stores the
declared api_key in plaintext, not as ciphertext from the encryption
collaborator. In general encryptMetadata is the identity on every metadata
object lacking an auth key. -/
theorem claim_C1_credentials_persisted_plaintext :
    (∀ (env : Env) (fields : List (String × Jval)),
      (fields.lookup "auth").isNone → encryptMetadata env (.obj fields) = .obj fields) ∧
    (let w1 := (syncActions fxEnv "a1" (some [fxAction "d" fxAuthSvc]) fxOid fxWorld0).2
     w1.store.actions.map
       (fun a => (a.action_id, objGet a.metadata "api_key", objGet a.metadata "auth")) =
       [("d_a1", .str "secret-key", .undef)] ∧
     fxEnv.encryptV2 "secret-key" = "vault:secret-key") := by
  constructor
  · intro env fields hnone
    unfold encryptMetadata
    have hget : objGet (.obj fields) "auth" = .undef := by
      simp [objGet, Option.isNone_iff_eq_none.mp hnone]
    rw [hget]
    simp [truthy]
  · exact ⟨rfl, rfl⟩

/-- Witness for C1: the general no-op fact applied at the very metadata
object syncActions builds for the failing input, whose key list visibly
lacks auth. -/
theorem claim_C1_witness :
    encryptMetadata fxEnv
      (.obj [("domain", .str "d"), ("raw_spec", .str "demo-openapi-spec"),
             ("type", .str "service_http"), ("api_key", .str "secret-key")]) =
    .obj [("domain", .str "d"), ("raw_spec", .str "demo-openapi-spec"),
          ("type", .str "service_http"), ("api_key", .str "secret-key")] :=
  claim_C1_credentials_persisted_plaintext.1 fxEnv
    [("domain", .str "d"), ("raw_spec", .str "demo-openapi-spec"),
     ("type", .str "service_http"), ("api_key", .str "secret-key")] (by decide)

end DefaultAgents

namespace DefaultAgents

theorem isAbsolutePath_renderAbsolute (segs : List String) :
    isAbsolutePath (renderAbsolute segs) = true := by
  have hdata : (renderAbsolute segs).data = '/' :: (String.intercalate "/" segs).data := by
    simp [renderAbsolute, String.data_append]
  simp [isAbsolutePath, hdata]

/-- C4 (code evaluated at the failing input): loadConfigFile passes the
already-resolved absolute path to validateFilePath, whose first guard admits
every absolute path, so the traversal check is unreachable: (1) the
resolve-and-validate opening succeeds for every input path in every
environment; (2) concretely, the relative input ../outside.txt with working
directory /base/dir resolves to /base/outside.txt and passes, (3) although
that resolution is not a descendant of the base directory; (4) validateFilePath
itself, applied to the original relative input as its documentation intends,
does reject it with the PathTraversal error. -/
theorem claim_C4_path_traversal_check_unreachable :
    (∀ (env : Env) (filePath : String), ∃ r, loadConfigFilePathCheck env filePath = .ok r) ∧
    loadConfigFilePathCheck fxEnv "../outside.txt" = .ok "/base/outside.txt" ∧
    jsStartsWith "/base/outside.txt" "/base/dir" = false ∧
    validateFilePath fxEnv "../outside.txt" "/base/dir" =
      .error ("Path traversal detected: ../outside.txt attempts to access files" ++
        " outside base directory") := by
  refine ⟨fun env filePath => ?_, rfl, by decide, rfl⟩
  unfold loadConfigFilePathCheck
  by_cases habs : isAbsolutePath filePath
  · simp [habs]
  · have hres : isAbsolutePath (resolveConfigFilePath env filePath) = true := by
      unfold resolveConfigFilePath pathResolveTwo
      simp [habs]
      split <;> simp [isAbsolutePath_renderAbsolute]
    simp [habs, validateFilePath, hres]

end DefaultAgents

namespace DefaultAgents

theorem deleteActionsLoop_agents (env : Env) (oid : String) :
    ∀ (ids : List String) (w : World),
      (deleteActionsLoop env oid ids w).2.store.agents = w.store.agents
  | [], _ => rfl
  | aid :: rest, w => by
    unfold deleteActionsLoop deleteActionOp
    cases env.deleteActionFail aid with
    | none => simpa using deleteActionsLoop_agents env oid rest _
    | some msg => rfl

theorem deleteActionsLoop_ok (env : Env) (oid : String) :
    ∀ (ids : List String) (w : World),
      (∀ aid ∈ ids, env.deleteActionFail aid = none) →
      (deleteActionsLoop env oid ids w).1 = .ok ()
  | [], _, _ => rfl
  | aid :: rest, w, h => by
    unfold deleteActionsLoop deleteActionOp
    have haid : env.deleteActionFail aid = none := h aid (List.mem_cons_self aid rest)
    rw [haid]
    exact deleteActionsLoop_ok env oid rest _ (fun x hx => h x (List.mem_cons_of_mem _ hx))

theorem cleanupLoop_agents_subset (env : Env) (oid : String) :
    ∀ (l : List AgentRecord) (w : World),
      ∀ a ∈ (cleanupLoop env oid l w).store.agents, a ∈ w.store.agents
  | [], _, _, ha => ha
  | agent :: rest, w, a, ha => by
    unfold cleanupLoop at ha
    rcases hdel : deleteActionsLoop env oid agent.actions w with ⟨res, w1⟩
    have hw1 : w1.store.agents = w.store.agents := by
      have := deleteActionsLoop_agents env oid agent.actions w
      rw [hdel] at this
      exact this
    rcases res with msg | u
    · rw [hdel] at ha
      have := cleanupLoop_agents_subset env oid rest w1 a ha
      rw [hw1] at this
      exact this
    · rw [hdel] at ha
      unfold deleteAgentOp at ha
      cases hfail : env.deleteAgentFail agent.id with
      | some msg =>
        rw [hfail] at ha
        have := cleanupLoop_agents_subset env oid rest w1 a ha
        rw [hw1] at this
        exact this
      | none =>
        rw [hfail] at ha
        have hmem := cleanupLoop_agents_subset env oid rest _ a ha
        simp only [List.mem_filter] at hmem
        rw [hw1] at hmem
        exact hmem.1

theorem cleanupLoop_keeps_removed (env : Env) (oid targetId : String)
    (l : List AgentRecord) (w : World)
    (h : ∀ a ∈ w.store.agents, ¬(a.id = targetId ∧ a.author = oid)) :
    ∀ a ∈ (cleanupLoop env oid l w).store.agents, ¬(a.id = targetId ∧ a.author = oid) :=
  fun a ha => h a (cleanupLoop_agents_subset env oid l w a ha)

theorem cleanupLoop_removes (env : Env) (oid : String) :
    ∀ (l : List AgentRecord) (w : World) (o : AgentRecord), o ∈ l →
      env.deleteAgentFail o.id = none →
      (∀ aid ∈ o.actions, env.deleteActionFail aid = none) →
      ∀ a ∈ (cleanupLoop env oid l w).store.agents, ¬(a.id = o.id ∧ a.author = oid)
  | [], _, _, hmem, _, _ => absurd hmem (List.not_mem_nil _)
  | agent :: rest, w, o, hmem, hagent, hacts => by
    intro a ha
    rcases List.mem_cons.mp hmem with rfl | hrest
    · rcases hdel : deleteActionsLoop env oid o.actions w with ⟨res, w1⟩
      have hok : res = .ok () := by
        have := deleteActionsLoop_ok env oid o.actions w hacts
        rw [hdel] at this
        exact this
      subst hok
      have hw1 : w1.store.agents = w.store.agents := by
        have := deleteActionsLoop_agents env oid o.actions w
        rw [hdel] at this
        exact this
      unfold cleanupLoop at ha
      rw [hdel] at ha
      unfold deleteAgentOp at ha
      rw [hagent] at ha
      refine cleanupLoop_keeps_removed env oid o.id rest _ ?_ a ha
      intro x hx hcontra
      simp only [List.mem_filter] at hx
      rcases hx with ⟨_, hpred⟩
      simp [hcontra.1, hcontra.2] at hpred
    · unfold cleanupLoop at ha
      rcases hdel : deleteActionsLoop env oid agent.actions w with ⟨res, w1⟩
      rw [hdel] at ha
      rcases res with msg | u
      · exact cleanupLoop_removes env oid rest w1 o hrest hagent hacts a ha
      · exact cleanupLoop_removes env oid rest _ o hrest hagent hacts a ha

/-- C8 (amended): with a working listing, cleanup returns the number of
orphans identified (the length of the orphan list), regardless of how many
deletions succeed; each orphan's deletion is attempted independently — an
orphan whose own action and agent deletions do not throw is removed from the
store even when other orphans' deletions fail; partial failures are logged,
not thrown. -/
theorem claim_C8_cleanup_returns_attempted :
    (∀ (env : Env) (ids : List String) (oid : String) (w : World),
      env.findAgentsFail = none →
      (cleanupRemovedAgents env ids oid w).1 =
        .ok (((w.store.agents.filter (fun a => a.author == oid)).filter
          (fun a => !ids.contains a.id)).length)) ∧
    (∀ (env : Env) (ids : List String) (oid : String) (w : World) (o : AgentRecord),
      env.findAgentsFail = none →
      o ∈ (w.store.agents.filter (fun a => a.author == oid)).filter
        (fun a => !ids.contains a.id) →
      env.deleteAgentFail o.id = none →
      (∀ aid ∈ o.actions, env.deleteActionFail aid = none) →
      ∀ a ∈ (cleanupRemovedAgents env ids oid w).2.store.agents,
        ¬(a.id = o.id ∧ a.author = oid)) := by
  constructor
  · intro env ids oid w hfind
    unfold cleanupRemovedAgents findAgentsByAuthor
    rw [hfind]
    dsimp only
    by_cases hlen : ((w.store.agents.filter (fun a => a.author == oid)).filter
        (fun a => !ids.contains a.id)).length = 0
    · rw [if_pos hlen, hlen]
    · rw [if_neg hlen]
  · intro env ids oid w o hfind hmem hagent hacts a ha
    unfold cleanupRemovedAgents findAgentsByAuthor at ha
    rw [hfind] at ha
    dsimp only at ha
    by_cases hlen : ((w.store.agents.filter (fun a => a.author == oid)).filter
        (fun a => !ids.contains a.id)).length = 0
    · rw [List.length_eq_zero] at hlen
      rw [hlen] at hmem
      exact absurd hmem (List.not_mem_nil o)
    · rw [if_neg hlen] at ha
      exact cleanupLoop_removes env oid _ w o hmem hagent hacts a ha

/-- Counterexample for C8 as stated: two orphans, the first orphan's agent
deletion throws; cleanup still returns ok 2 although only one agent was
actually removed (orph1 is still stored, only orph2's deletion succeeded). -/
theorem claim_C8_counterexample :
    (cleanupRemovedAgents fxC8env ["keep"] fxOid fxC8world).1 = .ok 2 ∧
    (cleanupRemovedAgents fxC8env ["keep"] fxOid fxC8world).2.store.agents.map
      (fun a => a.id) = ["orph1"] ∧
    (cleanupRemovedAgents fxC8env ["keep"] fxOid fxC8world).2.ops.deletedAgents =
      ["orph2"] := by
  refine ⟨rfl, by decide, by decide⟩

/-- Witness for C8: the amended theorem applied to the concrete fixture — the
second orphan, whose deletions succeed, is removed even though the first
orphan's deletion throws. -/
theorem claim_C8_witness :
    ∀ a ∈ (cleanupRemovedAgents fxC8env ["keep"] fxOid fxC8world).2.store.agents,
      ¬(a.id = (fxOrphan "orph2" []).id ∧ a.author = fxOid) :=
  claim_C8_cleanup_returns_attempted.2 fxC8env ["keep"] fxOid fxC8world
    (fxOrphan "orph2" []) rfl
    (List.Mem.tail _ (List.Mem.head _))
    rfl
    (fun aid haid => absurd haid (List.not_mem_nil aid))

end DefaultAgents

namespace DefaultAgents

theorem cleanupRemovedAgents_ok (env : Env) (ids : List String) (oid : String) (w : World)
    (hfind : env.findAgentsFail = none) :
    ∃ n w1, cleanupRemovedAgents env ids oid w = (.ok n, w1) := by
  unfold cleanupRemovedAgents findAgentsByAuthor
  rw [hfind]
  dsimp only
  by_cases hlen : ((w.store.agents.filter (fun a => a.author == oid)).filter
      (fun a => !ids.contains a.id)).length = 0
  · rw [if_pos hlen]
    exact ⟨0, w, rfl⟩
  · rw [if_neg hlen]
    exact ⟨_, _, rfl⟩

/-- True for the per-agent entries the agent loop pushes, false for the
sync_failure entry the outer catch pushes. -/
def isAgentErr : ErrEntry → Bool
  | .agentErr _ _ _ => true
  | .syncFailure _ => false

theorem syncAgentsLoop_errors_agentErr (env : Env) (oid : String) :
    ∀ (cfgs : List AgentConfig) (w : World),
      ((syncAgentsLoop env oid cfgs w).1.2).all isAgentErr = true
  | [], _ => rfl
  | c :: rest, w => by
    unfold syncAgentsLoop
    rcases hstep : syncAgent env oid c w with ⟨res, w1⟩
    rcases res with e | a
    · dsimp only
      have ih := syncAgentsLoop_errors_agentErr env oid rest w1
      rcases hrest : syncAgentsLoop env oid rest w1 with ⟨⟨n, es⟩, w2⟩
      rw [hrest] at ih
      dsimp only at ih ⊢
      simp only [List.all_cons, Bool.and_eq_true]
      exact ⟨rfl, ih⟩
    · dsimp only
      have ih := syncAgentsLoop_errors_agentErr env oid rest w1
      rcases hrest : syncAgentsLoop env oid rest w1 with ⟨⟨n, es⟩, w2⟩
      rw [hrest] at ih
      dsimp only at ih ⊢
      exact ih

/-- C9 (amended): when listing the system-owned agents succeeds, the cleanup
phase never throws (per-orphan deletion failures are swallowed), the result's
success flag is true exactly when its errors list is empty, and every error
entry is a per-agent entry; concretely, a run in which one orphan's deletion
throws still reports success with no errors. A cleanup-phase listing failure,
however, does flip success (see the counterexample). -/
theorem claim_C9_cleanup_failures_and_success :
    (∀ (env : Env) (ids : List String) (oid : String) (w : World),
      env.findAgentsFail = none →
      ∃ n w1, cleanupRemovedAgents env ids oid w = (.ok n, w1)) ∧
    (∀ (env : Env) (config : Option (List AgentConfig)) (w : World),
      env.findAgentsFail = none →
      (((syncDefaultAgents env config w).1.success = true ↔
        (syncDefaultAgents env config w).1.errors = []) ∧
       ((syncDefaultAgents env config w).1.errors).all isAgentErr = true)) ∧
    (syncDefaultAgents fxC8env (some [fxOk1]) fxC8world).1 = ⟨true, 1, 2, []⟩ := by
  refine ⟨cleanupRemovedAgents_ok, fun env config w hfind => ?_, by decide⟩
  match config with
  | none => exact ⟨by simp [syncDefaultAgents], rfl⟩
  | some [] => exact ⟨by simp [syncDefaultAgents], rfl⟩
  | some (c :: rest) =>
    unfold syncDefaultAgents
    dsimp only
    rcases hloop : syncAgentsLoop env (getDefaultObjectId env) (c :: rest) w with ⟨⟨n, es⟩, w1⟩
    dsimp only
    rcases cleanupRemovedAgents_ok env ((c :: rest).map (fun a => a.id))
        (getDefaultObjectId env) w1 hfind with ⟨m, w2, hclean⟩
    rw [hclean]
    dsimp only
    constructor
    · exact ⟨fun h => List.isEmpty_iff.mp h, fun h => List.isEmpty_iff.mpr h⟩
    · have := syncAgentsLoop_errors_agentErr env (getDefaultObjectId env) (c :: rest) w
      rw [hloop] at this
      exact this

/-- Counterexample for C9 as stated: when the cleanup-phase listing throws,
the outer catch records a sync_failure entry and sets success to false even
though no per-agent reconciliation error occurred. -/
theorem claim_C9_counterexample :
    (syncDefaultAgents fxC9env (some [fxOk1]) fxWorld0).1 =
      ⟨false, 1, 0, [.syncFailure "database unavailable"]⟩ := by
  decide

/-- Witness for C9: the amended theorem applied to the fixture environment
without listing failure and a concrete config. -/
theorem claim_C9_witness :
    ((syncDefaultAgents fxEnv (some [fxOk1]) fxWorld0).1.success = true ↔
      (syncDefaultAgents fxEnv (some [fxOk1]) fxWorld0).1.errors = []) ∧
    ((syncDefaultAgents fxEnv (some [fxOk1]) fxWorld0).1.errors).all isAgentErr = true :=
  (claim_C9_cleanup_failures_and_success.2.1 fxEnv (some [fxOk1]) fxWorld0 rfl)

end DefaultAgents

namespace DefaultAgents

theorem applyAgentUpdate_id (a : AgentRecord) (u : AgentUpdate) :
    (applyAgentUpdate a u).id = a.id := rfl

theorem applyAgentUpdate_author (a : AgentRecord) (u : AgentUpdate) :
    (applyAgentUpdate a u).author = a.author := rfl

theorem getAgent_some (st : Store) (id oid : String) (a : AgentRecord)
    (h : getAgent st id oid = some a) :
    a ∈ st.agents ∧ a.id = id ∧ a.author = oid := by
  unfold getAgent at h
  have hmem := List.mem_of_find?_eq_some h
  have hpred := List.find?_some h
  simp only [Bool.and_eq_true, beq_iff_eq] at hpred
  exact ⟨hmem, hpred.1, hpred.2⟩

theorem updateAgentsList_spec (id : String) (u : AgentUpdate) :
    ∀ (l : List AgentRecord), (∃ x ∈ l, x.id = id) →
      ∃ a0 l2, a0 ∈ l ∧ a0.id = id ∧
        updateAgentsList id u l = (some (applyAgentUpdate a0 u), l2) ∧
        (∀ x ∈ l2, x ∈ l ∨ x = applyAgentUpdate a0 u) ∧
        (∀ oid, (∀ x ∈ l, x.id = id → x.author = oid) →
          l2.find? (fun a => a.id == id && a.author == oid) =
            some (applyAgentUpdate a0 u)) ∧
        (∀ q : AgentRecord → Bool, q a0 = false → q (applyAgentUpdate a0 u) = false →
          l2.find? q = l.find? q)
  | [], hex => absurd hex (by simp)
  | a :: rest, hex => by
    by_cases ha : a.id = id
    · refine ⟨a, applyAgentUpdate a u :: rest, List.mem_cons_self a rest, ha, ?_, ?_, ?_, ?_⟩
      · unfold updateAgentsList
        rw [if_pos (beq_iff_eq.mpr ha)]
      · intro x hx
        rcases List.mem_cons.mp hx with rfl | hxr
        · exact Or.inr rfl
        · exact Or.inl (List.mem_cons_of_mem a hxr)
      · intro oid hclean
        have hauthor : a.author = oid := hclean a (List.mem_cons_self a rest) ha
        have hpred : ((applyAgentUpdate a u).id == id &&
            (applyAgentUpdate a u).author == oid) = true := by
          simp [applyAgentUpdate_id, applyAgentUpdate_author, ha, hauthor]
        simp [List.find?_cons, hpred]
      · intro q hq0 hq1
        rw [List.find?_cons_of_neg rest (by simp [hq1]),
          List.find?_cons_of_neg rest (by simp [hq0])]
    · have hex2 : ∃ x ∈ rest, x.id = id := by
        rcases hex with ⟨x, hx, hxid⟩
        rcases List.mem_cons.mp hx with rfl | hxr
        · exact absurd hxid ha
        · exact ⟨x, hxr, hxid⟩
      rcases updateAgentsList_spec id u rest hex2 with
        ⟨a0, l2, ha0mem, ha0id, heq, hsub, hfind, hframe⟩
      refine ⟨a0, a :: l2, List.mem_cons_of_mem a ha0mem, ha0id, ?_, ?_, ?_, ?_⟩
      · unfold updateAgentsList
        rw [if_neg (by simpa using ha), heq]
      · intro x hx
        rcases List.mem_cons.mp hx with rfl | hxr
        · exact Or.inl (List.mem_cons_self x rest)
        · rcases hsub x hxr with hxl | hxu
          · exact Or.inl (List.mem_cons_of_mem a hxl)
          · exact Or.inr hxu
      · intro oid hclean
        have hpred : (a.id == id && a.author == oid) = false := by
          simp [ha]
        rw [List.find?_cons, hpred]
        exact hfind oid (fun x hx hid => hclean x (List.mem_cons_of_mem a hx) hid)
      · intro q hq0 hq1
        rcases hqa : q a with _ | _
        · rw [List.find?_cons_of_neg l2 (by simp [hqa]),
            List.find?_cons_of_neg rest (by simp [hqa])]
          exact hframe q hq0 hq1
        · rw [List.find?_cons_of_pos l2 hqa, List.find?_cons_of_pos rest hqa]

theorem syncActionsLoop_agents (env : Env) (agentId oid : String) :
    ∀ (acts : List ActionConfig) (acc : List ActionRecord) (w : World),
      (syncActionsLoop env agentId oid acts acc w).2.store.agents = w.store.agents
  | [], _, _ => rfl
  | ac :: rest, acc, w => by
    unfold syncActionsLoop
    cases loadActionSpec env ac with
    | error e => rfl
    | ok spec =>
      dsimp only
      rw [syncActionsLoop_agents env agentId oid rest _ _]
      rfl

theorem syncActionsLoop_ok_ids (env : Env) (agentId oid : String) :
    ∀ (acts : List ActionConfig) (acc res : List ActionRecord) (w w2 : World),
      syncActionsLoop env agentId oid acts acc w = (.ok res, w2) →
      res.map (fun r => r.action_id) =
        acc.map (fun r => r.action_id) ++
          acts.map (fun ac => generateActionId ac.domain agentId)
  | [], acc, res, w, w2, h => by
    unfold syncActionsLoop at h
    rcases h with ⟨⟩
    simp
  | ac :: rest, acc, res, w, w2, h => by
    unfold syncActionsLoop at h
    cases hspec : loadActionSpec env ac with
    | error e => rw [hspec] at h; exact absurd h (by simp)
    | ok spec =>
      rw [hspec] at h
      dsimp only at h
      have ih := syncActionsLoop_ok_ids env agentId oid rest _ res _ w2 h
      rw [ih]
      simp only [List.map_append, List.map_cons, List.map_nil, List.append_assoc]
      rfl

end DefaultAgents

namespace DefaultAgents

theorem updateAgentOp_actions_spec (w2 : World) (idv oid : String)
    (ids : List String)
    (hmem : ∃ x ∈ w2.store.agents, x.id = idv)
    (hclean : ∀ x ∈ w2.store.agents, x.id = idv → x.author = oid) :
    ∃ upd w3, updateAgentOp w2 idv { actionsOpt := some ids } = (some upd, w3) ∧
      upd.actions = ids ∧
      getAgent w3.store idv oid = some upd := by
  rcases updateAgentsList_spec idv { actionsOpt := some ids } w2.store.agents hmem with
    ⟨a0, l2, ha0mem, ha0id, heq, hsub, hfind, hframe⟩
  refine ⟨applyAgentUpdate a0 { actionsOpt := some ids },
    { store := { w2.store with agents := l2 },
      ops := { w2.ops with updatedAgents := w2.ops.updatedAgents ++ [idv] } }, ?_, rfl, ?_⟩
  · unfold updateAgentOp
    rw [heq]
  · unfold getAgent
    exact hfind oid hclean

theorem updateDefaultAgent_spec (ex : AgentRecord) (c : AgentConfig) (ins av : Jval)
    (oid : String) (w : World)
    (hmem : ∃ x ∈ w.store.agents, x.id = ex.id)
    (hclean : ∀ x ∈ w.store.agents, x.id = ex.id → x.author = oid) :
    ∃ upd w1, updateDefaultAgent ex c ins av oid w = (some upd, w1) ∧
      upd.id = ex.id ∧ upd.author = oid ∧
      (∀ x ∈ w1.store.agents, x ∈ w.store.agents ∨ x = upd) ∧
      upd ∈ w1.store.agents ∧
      getAgent w1.store ex.id oid = some upd ∧
      upd.versions.getLast?.bind (fun v => v.configHash) =
        some (calculateAgentConfigHash c ins av) ∧
      (∀ id2 auth, id2 ≠ ex.id → getAgent w1.store id2 auth = getAgent w.store id2 auth) ∧
      w1.store.actions = w.store.actions ∧
      w1.ops.upsertedActions = w.ops.upsertedActions := by
  unfold updateDefaultAgent updateAgentOp
  dsimp only
  rcases updateAgentsList_spec ex.id
      { nameOpt := some (Jval.str c.name), descriptionOpt := some c.description,
        instructionsOpt := some ins, avatarOpt := some av,
        providerOpt := some (Jval.str c.provider), modelOpt := some (Jval.str c.model),
        categoryOpt := some (jsOr c.category (Jval.str "general")),
        model_parametersOpt := some c.model_parameters,
        recursion_limitOpt := some c.recursion_limit,
        toolsOpt := some (jsOr c.tools (Jval.arr [])),
        tool_resourcesOpt := some c.tool_resources,
        configHashOpt := some (calculateAgentConfigHash c ins av) }
      w.store.agents hmem with ⟨a0, l2, ha0mem, ha0id, heq, hsub, hfind, hframe⟩
  rw [heq]
  refine ⟨_, _, rfl, ?_, ?_, hsub, ?_, ?_, ?_, ?_, rfl, rfl⟩
  · rw [applyAgentUpdate_id]; exact ha0id
  · rw [applyAgentUpdate_author]; exact hclean a0 ha0mem ha0id
  · exact List.mem_of_find?_eq_some (hfind oid hclean)
  · exact hfind oid hclean
  · show ((a0.versions ++
      [Version.mk (some (calculateAgentConfigHash c ins av))]).getLast?).bind
        (fun v => v.configHash) = _
    rw [List.getLast?_concat]
    rfl
  · intro id2 auth hne
    unfold getAgent
    refine hframe (fun a => a.id == id2 && a.author == auth) ?_ ?_
    · simp only [Bool.and_eq_false_iff]
      left
      simp [ha0id, Ne.symm hne]
    · simp only [Bool.and_eq_false_iff]
      left
      simp [applyAgentUpdate_id, ha0id, Ne.symm hne]

theorem syncAgent_step56
    (env : Env) (oid idv : String) (acts1 : ActionConfig) (actsr : List ActionConfig)
    (agentv : AgentRecord) (w1 : World) (a : AgentRecord) (w' : World)
    (hagentid : agentv.id = idv)
    (hmem1 : ∃ x ∈ w1.store.agents, x.id = idv)
    (hclean1 : ∀ x ∈ w1.store.agents, x.id = idv → x.author = oid)
    (hok : (match syncActions env idv (some (acts1 :: actsr)) oid w1 with
            | (Except.error e, w2) => (Except.error e, w2)
            | (Except.ok actions, w2) =>
              if actions.length > 0 then
                match updateAgentOp w2 agentv.id
                    { actionsOpt := some (actions.map (fun x => x.action_id)) } with
                | (some updated, w3) => (Except.ok updated, w3)
                | (none, w3) => (Except.error "updateAgent returned null", w3)
              else (Except.ok agentv, w2)) = (Except.ok a, w')) :
    a.actions = (acts1 :: actsr).map (fun ac => generateActionId ac.domain idv) ∧
    getAgent w'.store idv oid = some a := by
  unfold syncActions at hok
  dsimp only at hok
  rcases hsync : syncActionsLoop env idv oid (acts1 :: actsr) [] w1 with ⟨res, w2⟩
  rw [hsync] at hok
  rcases res with e | resActs
  · exact absurd hok (by simp)
  dsimp only at hok
  have hids := syncActionsLoop_ok_ids env idv oid (acts1 :: actsr) [] resActs w1 w2 hsync
  have hpos : resActs.length > 0 := by
    have hlen := congrArg List.length hids
    simp at hlen
    omega
  rw [if_pos hpos] at hok
  have hagents2 : w2.store.agents = w1.store.agents := by
    have := syncActionsLoop_agents env idv oid (acts1 :: actsr) [] w1
    rw [hsync] at this
    exact this
  have hmem2 : ∃ x ∈ w2.store.agents, x.id = agentv.id := by
    rw [hagents2, hagentid]
    exact hmem1
  have hclean2 : ∀ x ∈ w2.store.agents, x.id = agentv.id → x.author = oid := by
    rw [hagents2, hagentid]
    exact hclean1
  rcases updateAgentOp_actions_spec w2 agentv.id oid
      (resActs.map (fun x => x.action_id)) hmem2 hclean2 with ⟨upd, w3, hupe, hupa, hupg⟩
  rw [hupe] at hok
  dsimp only at hok
  simp only [Prod.mk.injEq, Except.ok.injEq] at hok
  rcases hok with ⟨rfl, rfl⟩
  constructor
  · rw [hupa, hids]
    simp
  · rw [hagentid] at hupg
    exact hupg

end DefaultAgents

namespace DefaultAgents

/-- C5 (amended, general part): whenever an agent declares a non-empty action
list and its sync succeeds, the returned record's action-id list is exactly
the ids derived from the declared actions, and the store's record for
(id, system owner) is that returned record — with no hypothesis about the
hash comparison, since the action-id rewrite runs on every pass. The store
hypothesis says the declared id is not shared with foreign-owner records,
which is the keying of the spec's data model (id plus system owner). -/
theorem syncAgent_rewrites_action_ids
    (env : Env) (oid : String) (c : AgentConfig) (w : World)
    (a1 : ActionConfig) (arest : List ActionConfig) (a : AgentRecord) (w' : World)
    (hacts : c.actions = some (a1 :: arest))
    (hclean : ∀ x ∈ w.store.agents, x.id = c.id → x.author = oid)
    (hok : syncAgent env oid c w = (.ok a, w')) :
    a.actions = (a1 :: arest).map (fun ac => generateActionId ac.domain c.id) ∧
    getAgent w'.store c.id oid = some a := by
  unfold syncAgent at hok
  rcases hpre : syncAgentPrecheck env c with e | ⟨ins, av⟩ <;> rw [hpre] at hok
  · exact absurd hok (by simp)
  dsimp only at hok
  rw [hacts] at hok
  rcases hget : getAgent w.store c.id oid with _ | ex <;> rw [hget] at hok
  · -- create path
    dsimp only at hok
    refine syncAgent_step56 env oid c.id a1 arest
      (createDefaultAgent c ins av oid w).1 (createDefaultAgent c ins av oid w).2
      a w' rfl ?_ ?_ hok
    · refine ⟨(createDefaultAgent c ins av oid w).1, ?_, rfl⟩
      show _ ∈ w.store.agents ++ [(createDefaultAgent c ins av oid w).1]
      exact List.mem_append_right _ (List.mem_singleton.mpr rfl)
    · intro x hx hid
      rcases List.mem_append.mp
          (show x ∈ w.store.agents ++ [(createDefaultAgent c ins av oid w).1] from hx)
        with hxl | hxr
      · exact hclean x hxl hid
      · rw [List.mem_singleton.mp hxr]
        rfl
  · -- existing-agent path
    have hexfacts := getAgent_some w.store c.id oid ex hget
    dsimp only at hok
    split at hok
    · -- the (error, w1) arm of the step-4 match cannot produce an ok result
      exact absurd hok (by simp)
    · rename_i agentv w1 heq4
      split at heq4
      · -- hash unchanged: skip with the world untouched
        simp only [Prod.mk.injEq, Except.ok.injEq] at heq4
        rcases heq4 with ⟨rfl, rfl⟩
        exact syncAgent_step56 env oid c.id a1 arest ex w a w' hexfacts.2.1
          ⟨ex, hexfacts.1, hexfacts.2.1⟩ hclean hok
      · -- content changed: update, then the action rewrite from the updated world
        have hmemex : ∃ x ∈ w.store.agents, x.id = ex.id := ⟨ex, hexfacts.1, rfl⟩
        have hcleanex : ∀ x ∈ w.store.agents, x.id = ex.id → x.author = oid := by
          intro x hx hid
          exact hclean x hx (hid.trans hexfacts.2.1)
        rcases updateDefaultAgent_spec ex c ins av oid w hmemex hcleanex with
          ⟨upd, w2, hupe, hupid, hupauthor, hupsub, hupmem, _, _, _, _, _⟩
        rw [hupe] at heq4
        dsimp only at heq4
        simp only [Prod.mk.injEq, Except.ok.injEq] at heq4
        rcases heq4 with ⟨rfl, rfl⟩
        refine syncAgent_step56 env oid c.id a1 arest upd w2 a w'
          (hupid.trans hexfacts.2.1) ?_ ?_ hok
        · exact ⟨upd, hupmem, hupid.trans hexfacts.2.1⟩
        · intro x hx hid
          rcases hupsub x hx with hxl | hxr
          · exact hclean x hxl hid
          · rw [hxr]
            exact hupauthor

end DefaultAgents

namespace DefaultAgents

/-- C5 (amended): when action reconciliation returns a non-empty list,
syncAgent rewrites the persisted record's action-id list to exactly the
returned ids on every pass, with no dependence on the hash comparison (the
general part has no hypothesis about it; the concrete part runs the
hash-unchanged skip path against a stored record holding a stale action list
and sees the list rewritten and no version appended). When the returned list
is empty the rewrite is skipped — see the counterexample. -/
theorem claim_C5_action_list_update :
    (∀ (env : Env) (oid : String) (c : AgentConfig) (w : World)
       (a1 : ActionConfig) (arest : List ActionConfig) (a : AgentRecord) (w' : World),
      c.actions = some (a1 :: arest) →
      (∀ x ∈ w.store.agents, x.id = c.id → x.author = oid) →
      syncAgent env oid c w = (.ok a, w') →
      a.actions = (a1 :: arest).map (fun ac => generateActionId ac.domain c.id) ∧
      getAgent w'.store c.id oid = some a) ∧
    ((getAgent (syncAgent fxEnv fxOid fxC5cfgWithAction fxC5world).2.store "a5" fxOid).map
        (fun x => x.actions) = some ["demo_a5"] ∧
     (getAgent (syncAgent fxEnv fxOid fxC5cfgWithAction fxC5world).2.store "a5" fxOid).map
        (fun x => x.versions.length) = some 1 ∧
     (syncAgent fxEnv fxOid fxC5cfgWithAction fxC5world).2.ops.createdAgents = []) := by
  refine ⟨fun env oid c w a1 arest a w' hacts hclean hok =>
    syncAgent_rewrites_action_ids env oid c w a1 arest a w' hacts hclean hok,
    by decide, by decide, by decide⟩

/-- Counterexample for C5 as stated: the same stored record synced against
the declaration whose action list is empty keeps its stale action-id list —
no updateAgent call happens at all — where the claim requires the list to
become empty. -/
theorem claim_C5_counterexample :
    (getAgent (syncAgent fxEnv fxOid fxC5cfg fxC5world).2.store "a5" fxOid).map
      (fun x => x.actions) = some ["stale_action"] ∧
    fxC5cfg.actions = some [] ∧
    (syncAgent fxEnv fxOid fxC5cfg fxC5world).2.ops.updatedAgents = [] := by
  refine ⟨by decide, rfl, by decide⟩

/-- Witness for C5: the general part applied to the concrete skip-path
fixture, with every hypothesis discharged there. -/
theorem claim_C5_witness :
    ∃ a w', syncAgent fxEnv fxOid fxC5cfgWithAction fxC5world = (.ok a, w') ∧
      a.actions = [generateActionId "demo" "a5"] ∧
      getAgent w'.store "a5" fxOid = some a := by
  have h1 : (syncAgent fxEnv fxOid fxC5cfgWithAction fxC5world).1 =
      .ok ((getAgent (syncAgent fxEnv fxOid fxC5cfgWithAction fxC5world).2.store
        "a5" fxOid).getD fxC5record) := by rfl
  have hok : syncAgent fxEnv fxOid fxC5cfgWithAction fxC5world =
      (.ok ((getAgent (syncAgent fxEnv fxOid fxC5cfgWithAction fxC5world).2.store
        "a5" fxOid).getD fxC5record),
       (syncAgent fxEnv fxOid fxC5cfgWithAction fxC5world).2) :=
    Prod.ext_iff.mpr ⟨h1, rfl⟩
  have hclean : ∀ x ∈ fxC5world.store.agents,
      x.id = fxC5cfgWithAction.id → x.author = fxOid := by
    intro x hx _
    rw [List.mem_singleton.mp hx]
    rfl
  have hres := claim_C5_action_list_update.1 fxEnv fxOid fxC5cfgWithAction fxC5world
    (fxAction "demo" .undef) [] _ _ rfl hclean hok
  exact ⟨_, _, hok, hres.1, hres.2⟩

end DefaultAgents

namespace DefaultAgents

theorem syncAgentsLoop_count (env : Env) (oid : String) :
    ∀ (cfgs : List AgentConfig) (w : World),
      (syncAgentsLoop env oid cfgs w).1.1 + (syncAgentsLoop env oid cfgs w).1.2.length =
        cfgs.length
  | [], _ => rfl
  | c :: rest, w => by
    unfold syncAgentsLoop
    rcases hstep : syncAgent env oid c w with ⟨res, w1⟩
    rcases res with e | a
    · dsimp only
      have ih := syncAgentsLoop_count env oid rest w1
      rcases hrest : syncAgentsLoop env oid rest w1 with ⟨⟨n, es⟩, w2⟩
      rw [hrest] at ih
      dsimp only at ih ⊢
      simp only [List.length_cons]
      omega
    · dsimp only
      have ih := syncAgentsLoop_count env oid rest w1
      rcases hrest : syncAgentsLoop env oid rest w1 with ⟨⟨n, es⟩, w2⟩
      rw [hrest] at ih
      dsimp only at ih ⊢
      simp only [List.length_cons]
      omega

theorem syncAgentsLoop_errors_declared (env : Env) (oid : String) :
    ∀ (cfgs : List AgentConfig) (w : World),
      ∀ e ∈ (syncAgentsLoop env oid cfgs w).1.2,
        cfgs.any (fun c =>
          match e with
          | .agentErr i n _ => i == c.id && n == c.name
          | .syncFailure _ => false) = true
  | [], _, e, he => absurd he (by simp [syncAgentsLoop])
  | c :: rest, w, e, he => by
    unfold syncAgentsLoop at he
    rcases hstep : syncAgent env oid c w with ⟨res, w1⟩
    rw [hstep] at he
    rcases res with msg | a
    · dsimp only at he
      have ih := syncAgentsLoop_errors_declared env oid rest w1
      rcases hrest : syncAgentsLoop env oid rest w1 with ⟨⟨n, es⟩, w2⟩
      rw [hrest] at ih he
      dsimp only at he
      rcases List.mem_cons.mp he with rfl | hr
      · simp
      · have := ih e hr
        simp only [List.any_cons]
        simp only [this, Bool.or_true]
    · dsimp only at he
      have ih := syncAgentsLoop_errors_declared env oid rest w1
      rcases hrest : syncAgentsLoop env oid rest w1 with ⟨⟨n, es⟩, w2⟩
      rw [hrest] at ih he
      dsimp only at he
      have := ih e he
      simp only [List.any_cons]
      simp only [this, Bool.or_true]

/-- C2: failure isolation of the agent loop. (1) Every declared agent is
accounted for exactly once: syncedCount plus the number of error entries
equals the number of declarations, so reconciliation proceeds past failures;
(2) every error entry carries the id and name of one of the declared agents;
(3) the result's success flag is true exactly when its errors list is empty;
(4) concretely for [ok1, broken, ok2], where broken fails validation: the
run yields syncedCount 2, exactly one error entry carrying broken's id and
the validation message, success false, and ok1 and ok2 persisted while
broken is not. -/
theorem claim_C2_failure_isolation :
    (∀ (env : Env) (oid : String) (cfgs : List AgentConfig) (w : World),
      (syncAgentsLoop env oid cfgs w).1.1 + (syncAgentsLoop env oid cfgs w).1.2.length =
        cfgs.length) ∧
    (∀ (env : Env) (oid : String) (cfgs : List AgentConfig) (w : World),
      ∀ e ∈ (syncAgentsLoop env oid cfgs w).1.2,
        cfgs.any (fun c =>
          match e with
          | .agentErr i n _ => i == c.id && n == c.name
          | .syncFailure _ => false) = true) ∧
    (∀ (env : Env) (config : Option (List AgentConfig)) (w : World),
      (syncDefaultAgents env config w).1.success = true ↔
        (syncDefaultAgents env config w).1.errors = []) ∧
    ((syncDefaultAgents fxEnv (some [fxOk1, fxBroken, fxOk2]) fxWorld0).1.syncedCount = 2 ∧
     (syncDefaultAgents fxEnv (some [fxOk1, fxBroken, fxOk2]) fxWorld0).1.errors =
       [.agentErr "broken" "Broken"
         "Invalid agent configuration: Missing required field: model"] ∧
     (syncDefaultAgents fxEnv (some [fxOk1, fxBroken, fxOk2]) fxWorld0).1.success = false ∧
     (getAgent (syncDefaultAgents fxEnv (some [fxOk1, fxBroken, fxOk2]) fxWorld0).2.store
        "ok1" fxOid).isSome = true ∧
     (getAgent (syncDefaultAgents fxEnv (some [fxOk1, fxBroken, fxOk2]) fxWorld0).2.store
        "ok2" fxOid).isSome = true ∧
     (getAgent (syncDefaultAgents fxEnv (some [fxOk1, fxBroken, fxOk2]) fxWorld0).2.store
        "broken" fxOid).isNone = true) := by
  refine ⟨syncAgentsLoop_count, syncAgentsLoop_errors_declared, ?_,
    by decide, by decide, by decide, by decide, by decide, by decide⟩
  intro env config w
  match config with
  | none => simp [syncDefaultAgents]
  | some [] => simp [syncDefaultAgents]
  | some (c :: rest) =>
    unfold syncDefaultAgents
    dsimp only
    rcases hloop : syncAgentsLoop env (getDefaultObjectId env) (c :: rest) w with ⟨⟨n, es⟩, w1⟩
    dsimp only
    rcases hclean : cleanupRemovedAgents env (c.id :: rest.map (fun a => a.id))
        (getDefaultObjectId env) w1 with ⟨cres, w2⟩
    rw [List.map_cons, hclean]
    rcases cres with e | m
    · simp
    · exact ⟨fun h => List.isEmpty_iff.mp h, fun h => List.isEmpty_iff.mpr h⟩

end DefaultAgents

namespace DefaultAgents

theorem sha256hex_ne_empty (s : String) : SHA.sha256hex s ≠ "" := by
  intro h
  have hd := congrArg String.data h
  simp [SHA.sha256hex, SHA.wordHex] at hd

theorem calculateAgentConfigHash_ne_empty (c : AgentConfig) (ins av : Jval) :
    calculateAgentConfigHash c ins av ≠ "" :=
  sha256hex_ne_empty _

theorem syncActions_trivial (env : Env) (agentId oid : String) (w : World)
    (acts : Option (List ActionConfig)) (hna : acts = none ∨ acts = some []) :
    syncActions env agentId acts oid w = (.ok [], w) := by
  rcases hna with rfl | rfl <;> rfl

theorem syncAgent_of_precheck_error (env : Env) (oid : String) (c : AgentConfig)
    (w : World) (e : String) (hpre : syncAgentPrecheck env c = .error e) :
    syncAgent env oid c w = (.error e, w) := by
  unfold syncAgent
  rw [hpre]

theorem find?_append_of_none {α : Type} (p : α → Bool) (l1 l2 : List α)
    (h : l1.find? p = none) : (l1 ++ l2).find? p = l2.find? p := by
  rw [List.find?_append, h, Option.none_or]

theorem find?_filter_frame {α : Type} (p keep : α → Bool) (l : List α)
    (h : ∀ x, p x = true → keep x = true) :
    (l.filter keep).find? p = l.find? p := by
  induction l with
  | nil => rfl
  | cons a rest ih =>
    by_cases hp : p a = true
    · rw [List.filter_cons, h a hp]
      simp only [if_true]
      rw [List.find?_cons_of_pos rest hp, List.find?_cons_of_pos (rest.filter keep) hp]
    · rw [List.filter_cons]
      rcases hk : keep a with _ | _
      · simp only [Bool.false_eq_true, if_false]
        rw [ih, List.find?_cons_of_neg rest hp]
      · simp only [if_true]
        rw [List.find?_cons_of_neg (rest.filter keep) hp, ih, List.find?_cons_of_neg rest hp]

end DefaultAgents

namespace DefaultAgents

theorem syncAgent_skip (env : Env) (oid : String) (c : AgentConfig) (w : World)
    (ins av : Jval) (a0 : AgentRecord)
    (hpre : syncAgentPrecheck env c = .ok (ins, av))
    (hna : c.actions = none ∨ c.actions = some [])
    (hget : getAgent w.store c.id oid = some a0)
    (hhash : a0.versions.getLast?.bind (fun v => v.configHash) =
      some (calculateAgentConfigHash c ins av)) :
    syncAgent env oid c w = (.ok a0, w) := by
  unfold syncAgent
  rw [hpre]
  dsimp only
  rw [hget]
  dsimp only
  rw [hhash]
  dsimp only
  have hcond : (calculateAgentConfigHash c ins av != "" &&
      hashesEqual (calculateAgentConfigHash c ins av)
        (calculateAgentConfigHash c ins av)) = true := by
    simp [hashesEqual, calculateAgentConfigHash_ne_empty c ins av]
  rw [if_pos hcond]
  dsimp only
  rw [syncActions_trivial env c.id oid w c.actions hna]
  rfl

theorem syncAgent_noacts_ok (env : Env) (oid : String) (c : AgentConfig) (w : World)
    (ins av : Jval)
    (hpre : syncAgentPrecheck env c = .ok (ins, av))
    (hna : c.actions = none ∨ c.actions = some [])
    (hclean : ∀ x ∈ w.store.agents, x.id = c.id → x.author = oid) :
    ∃ a w1, syncAgent env oid c w = (.ok a, w1) ∧
      getAgent w1.store c.id oid = some a ∧
      a.versions.getLast?.bind (fun v => v.configHash) =
        some (calculateAgentConfigHash c ins av) ∧
      (∀ id2 auth, id2 ≠ c.id → getAgent w1.store id2 auth = getAgent w.store id2 auth) ∧
      (∀ x ∈ w1.store.agents, x ∈ w.store.agents ∨ x.author = oid) ∧
      w1.store.actions = w.store.actions ∧
      w1.ops.upsertedActions = w.ops.upsertedActions := by
  rcases hget : getAgent w.store c.id oid with _ | ex
  · -- create path
    refine ⟨(createDefaultAgent c ins av oid w).1, (createDefaultAgent c ins av oid w).2,
      ?_, ?_, ?_, ?_, ?_, rfl, rfl⟩
    · unfold syncAgent
      rw [hpre]
      dsimp only
      rw [hget]
      dsimp only
      rw [syncActions_trivial env c.id oid _ c.actions hna]
      rfl
    · unfold getAgent
      show (w.store.agents ++ [(createDefaultAgent c ins av oid w).1]).find? _ = _
      rw [find?_append_of_none _ _ _ hget]
      refine List.find?_cons_of_pos _ ?_
      simp [createDefaultAgent]
    · simp [createDefaultAgent]
    · intro id2 auth hne
      unfold getAgent
      show (w.store.agents ++ [(createDefaultAgent c ins av oid w).1]).find? _ = _
      rw [List.find?_append]
      have hnone : ([(createDefaultAgent c ins av oid w).1].find?
          (fun a => a.id == id2 && a.author == auth)) = none := by
        refine List.find?_eq_none.mpr ?_
        intro x hx
        rw [List.mem_singleton.mp hx]
        simp [createDefaultAgent, Ne.symm hne]
      rw [hnone, Option.or_none]
    · intro x hx
      rcases List.mem_append.mp
          (show x ∈ w.store.agents ++ [(createDefaultAgent c ins av oid w).1] from hx)
        with hxl | hxr
      · exact Or.inl hxl
      · right
        rw [List.mem_singleton.mp hxr]
        rfl
  · -- existing: skip or update
    have hexfacts := getAgent_some w.store c.id oid ex hget
    by_cases hu : (match ex.versions.getLast?.bind (fun v => v.configHash) with
      | some h => h != "" && hashesEqual h (calculateAgentConfigHash c ins av)
      | none => false) = true
    · -- hash unchanged: skip, world untouched
      have hhash : ex.versions.getLast?.bind (fun v => v.configHash) =
          some (calculateAgentConfigHash c ins av) := by
        rcases hl : ex.versions.getLast?.bind (fun v => v.configHash) with _ | h
        · rw [hl] at hu
          simp at hu
        · rw [hl] at hu
          simp only [Bool.and_eq_true, bne_iff_ne, ne_eq] at hu
          rw [hashesEqual] at hu
          rw [beq_iff_eq.mp hu.2] at hl ⊢

      refine ⟨ex, w, syncAgent_skip env oid c w ins av ex hpre hna hget hhash,
        hget, hhash, fun _ _ _ => rfl, fun x hx => Or.inl hx, rfl, rfl⟩
    · -- content changed: update
      have hmemex : ∃ x ∈ w.store.agents, x.id = ex.id := ⟨ex, hexfacts.1, rfl⟩
      have hcleanex : ∀ x ∈ w.store.agents, x.id = ex.id → x.author = oid :=
        fun x hx hid => hclean x hx (hid.trans hexfacts.2.1)
      rcases updateDefaultAgent_spec ex c ins av oid w hmemex hcleanex with
        ⟨upd, w1, hupe, hupid, hupauthor, hupsub, hupmem, hupget, huplast, hupframe,
         hupactions, hupops⟩
      refine ⟨upd, w1, ?_, ?_, huplast, ?_, ?_, hupactions, hupops⟩
      · unfold syncAgent
        rw [hpre]
        dsimp only
        rw [hget]
        dsimp only
        rw [if_neg hu, hupe]
        dsimp only
        rw [syncActions_trivial env c.id oid w1 c.actions hna]
        rfl
      · rw [← hexfacts.2.1]
        exact hupget
      · intro id2 auth hne
        exact hupframe id2 auth (fun hcontra => hne (hcontra.trans hexfacts.2.1))
      · intro x hx
        rcases hupsub x hx with hxl | hxr
        · exact Or.inl hxl
        · right
          rw [hxr]
          exact hupauthor

end DefaultAgents

namespace DefaultAgents

theorem syncAgentsLoop_noacts (env : Env) (oid : String) :
    ∀ (cfgs : List AgentConfig) (w : World),
      (∀ c ∈ cfgs, c.actions = none ∨ c.actions = some []) →
      (∀ c ∈ cfgs, ∀ x ∈ w.store.agents, x.id = c.id → x.author = oid) →
      (cfgs.map (fun c => c.id)).Nodup →
      ((∀ c ∈ cfgs, ∀ ins av, syncAgentPrecheck env c = .ok (ins, av) →
         ∃ a0, getAgent (syncAgentsLoop env oid cfgs w).2.store c.id oid = some a0 ∧
           a0.versions.getLast?.bind (fun v => v.configHash) =
             some (calculateAgentConfigHash c ins av)) ∧
       (∀ id2 auth, id2 ∉ cfgs.map (fun c => c.id) →
         getAgent (syncAgentsLoop env oid cfgs w).2.store id2 auth =
           getAgent w.store id2 auth) ∧
       (∀ x ∈ (syncAgentsLoop env oid cfgs w).2.store.agents,
         x ∈ w.store.agents ∨ x.author = oid) ∧
       (syncAgentsLoop env oid cfgs w).2.store.actions = w.store.actions ∧
       (syncAgentsLoop env oid cfgs w).2.ops.upsertedActions = w.ops.upsertedActions ∧
       (syncAgentsLoop env oid cfgs w).1.1 = (cfgs.filter (fun c =>
         match syncAgentPrecheck env c with
         | .ok _ => true
         | .error _ => false)).length)
  | [], w, _, _, _ => by
    refine ⟨by simp, fun id2 auth _ => rfl, fun x hx => Or.inl hx, rfl, rfl, rfl⟩
  | c :: rest, w, hna, hclean, hnodup => by
    have hnarest : ∀ x ∈ rest, x.actions = none ∨ x.actions = some [] :=
      fun x hx => hna x (List.mem_cons_of_mem c hx)
    have hnodrest : (rest.map (fun c => c.id)).Nodup := by
      rw [List.map_cons] at hnodup
      exact hnodup.of_cons
    have hcidnotin : c.id ∉ rest.map (fun c => c.id) := by
      rw [List.map_cons] at hnodup
      exact (List.nodup_cons.mp hnodup).1
    rcases hpc : syncAgentPrecheck env c with e | ⟨ins, av⟩
    · -- precheck fails: the world is untouched and the loop continues
      have hstep := syncAgent_of_precheck_error env oid c w e hpc
      have ih := syncAgentsLoop_noacts env oid rest w hnarest
        (fun c2 h2 => hclean c2 (List.mem_cons_of_mem c h2)) hnodrest
      rcases ih with ⟨ihest, ihframe, ihsub, ihact, ihops, ihcount⟩
      unfold syncAgentsLoop
      rw [hstep]
      dsimp only
      rcases hrest : syncAgentsLoop env oid rest w with ⟨⟨n, es⟩, w2⟩
      rw [hrest] at ihest ihframe ihsub ihact ihops ihcount
      dsimp only at ihest ihframe ihsub ihact ihops ihcount ⊢
      refine ⟨?_, ?_, ihsub, ihact, ihops, ?_⟩
      · intro c2 h2 ins av hpre2
        rcases List.mem_cons.mp h2 with rfl | h2r
        · rw [hpc] at hpre2
          exact absurd hpre2 (by simp)
        · exact ihest c2 h2r ins av hpre2
      · intro id2 auth hnotin
        rw [List.map_cons] at hnotin
        exact ihframe id2 auth (fun hmem => hnotin (List.mem_cons_of_mem _ hmem))
      · rw [List.filter_cons]
        have hfalse : (match syncAgentPrecheck env c with
            | .ok _ => true | .error _ => false) = false := by
          rw [hpc]
        rw [hfalse]
        simp only [Bool.false_eq_true, if_false]
        exact ihcount
    · -- precheck succeeds: the agent syncs and later agents leave it alone
      rcases syncAgent_noacts_ok env oid c w ins av hpc
          (hna c (List.mem_cons_self c rest)) (hclean c (List.mem_cons_self c rest)) with
        ⟨a, w1, hstep, hgeta, hlasta, hframe1, hsub1, hact1, hops1⟩
      have hcleanrest : ∀ c2 ∈ rest, ∀ x ∈ w1.store.agents, x.id = c2.id → x.author = oid := by
        intro c2 h2 x hx hid
        rcases hsub1 x hx with hxl | hxr
        · exact hclean c2 (List.mem_cons_of_mem c h2) x hxl hid
        · exact hxr
      have ih := syncAgentsLoop_noacts env oid rest w1 hnarest hcleanrest hnodrest
      rcases ih with ⟨ihest, ihframe, ihsub, ihact, ihops, ihcount⟩
      unfold syncAgentsLoop
      rw [hstep]
      dsimp only
      rcases hrest : syncAgentsLoop env oid rest w1 with ⟨⟨n, es⟩, w2⟩
      rw [hrest] at ihest ihframe ihsub ihact ihops ihcount
      dsimp only at ihest ihframe ihsub ihact ihops ihcount ⊢
      refine ⟨?_, ?_, ?_, ?_, ?_, ?_⟩
      · intro c2 h2 ins2 av2 hpre2
        rcases List.mem_cons.mp h2 with rfl | h2r
        · rw [hpc] at hpre2
          have hins : ins = ins2 ∧ av = av2 := by
            have := hpre2
            simp only [Except.ok.injEq, Prod.mk.injEq] at this
            exact this
          rcases hins with ⟨rfl, rfl⟩
          refine ⟨a, ?_, hlasta⟩
          rw [ihframe c2.id oid hcidnotin]
          exact hgeta
        · exact ihest c2 h2r ins2 av2 hpre2
      · intro id2 auth hnotin
        rw [List.map_cons] at hnotin
        rw [ihframe id2 auth (fun hmem => hnotin (List.mem_cons_of_mem _ hmem))]
        exact hframe1 id2 auth (fun heq => hnotin (by rw [heq]; exact List.mem_cons_self _ _))
      · intro x hx
        rcases ihsub x hx with hxl | hxr
        · rcases hsub1 x hxl with hxll | hxlr
          · exact Or.inl hxll
          · exact Or.inr hxlr
        · exact Or.inr hxr
      · rw [ihact]
        exact hact1
      · rw [ihops]
        exact hops1
      · rw [List.filter_cons]
        have htrue : (match syncAgentPrecheck env c with
            | .ok _ => true | .error _ => false) = true := by
          rw [hpc]
        rw [htrue]
        simp only [if_true, List.length_cons]
        omega

end DefaultAgents

namespace DefaultAgents

theorem deleteActionsLoop_ops_frame (env : Env) (oid : String) :
    ∀ (ids : List String) (w : World),
      (deleteActionsLoop env oid ids w).2.ops.createdAgents = w.ops.createdAgents ∧
      (deleteActionsLoop env oid ids w).2.ops.updatedAgents = w.ops.updatedAgents ∧
      (deleteActionsLoop env oid ids w).2.ops.upsertedActions = w.ops.upsertedActions
  | [], _ => ⟨rfl, rfl, rfl⟩
  | aid :: rest, w => by
    unfold deleteActionsLoop deleteActionOp
    cases env.deleteActionFail aid with
    | none => simpa using deleteActionsLoop_ops_frame env oid rest _
    | some msg => exact ⟨rfl, rfl, rfl⟩

theorem cleanupLoop_getAgent_frame (env : Env) (oid : String) :
    ∀ (l : List AgentRecord) (w : World) (id2 auth : String),
      (∀ o ∈ l, o.id ≠ id2) →
      getAgent (cleanupLoop env oid l w).store id2 auth = getAgent w.store id2 auth
  | [], _, _, _, _ => rfl
  | agent :: rest, w, id2, auth, h => by
    unfold cleanupLoop
    rcases hdel : deleteActionsLoop env oid agent.actions w with ⟨res, w1⟩
    have hw1 : w1.store.agents = w.store.agents := by
      have := deleteActionsLoop_agents env oid agent.actions w
      rw [hdel] at this
      exact this
    have hrest := fun x hx => h x (List.mem_cons_of_mem agent hx)
    rcases res with msg | u
    · dsimp only
      rw [cleanupLoop_getAgent_frame env oid rest w1 id2 auth hrest]
      unfold getAgent
      rw [hw1]
    · dsimp only
      unfold deleteAgentOp
      cases hfail : env.deleteAgentFail agent.id with
      | some msg =>
        rw [cleanupLoop_getAgent_frame env oid rest w1 id2 auth hrest]
        unfold getAgent
        rw [hw1]
      | none =>
        rw [cleanupLoop_getAgent_frame env oid rest _ id2 auth hrest]
        show (w1.store.agents.filter _).find? _ = _
        have hkeep : ∀ x : AgentRecord, (x.id == id2 && x.author == auth) = true →
            (!(x.id == agent.id && x.author == oid)) = true := by
          intro x hx
          simp only [Bool.and_eq_true, beq_iff_eq] at hx
          have hne : x.id ≠ agent.id := by
            rw [hx.1]
            exact fun hcontra => (h agent (List.mem_cons_self agent rest)) hcontra.symm
          simp [hne]
        rw [find?_filter_frame _ _ _ hkeep, hw1]
        rfl

theorem cleanupLoop_ops_frame (env : Env) (oid : String) :
    ∀ (l : List AgentRecord) (w : World),
      (cleanupLoop env oid l w).ops.createdAgents = w.ops.createdAgents ∧
      (cleanupLoop env oid l w).ops.updatedAgents = w.ops.updatedAgents ∧
      (cleanupLoop env oid l w).ops.upsertedActions = w.ops.upsertedActions
  | [], _ => ⟨rfl, rfl, rfl⟩
  | agent :: rest, w => by
    unfold cleanupLoop
    rcases hdel : deleteActionsLoop env oid agent.actions w with ⟨res, w1⟩
    have hw1 := deleteActionsLoop_ops_frame env oid agent.actions w
    rw [hdel] at hw1
    rcases res with msg | u
    · dsimp only
      have ih := cleanupLoop_ops_frame env oid rest w1
      exact ⟨ih.1.trans hw1.1, ih.2.1.trans hw1.2.1, ih.2.2.trans hw1.2.2⟩
    · dsimp only
      unfold deleteAgentOp
      cases hfail : env.deleteAgentFail agent.id with
      | some msg =>
        have ih := cleanupLoop_ops_frame env oid rest w1
        exact ⟨ih.1.trans hw1.1, ih.2.1.trans hw1.2.1, ih.2.2.trans hw1.2.2⟩
      | none =>
        have ih := cleanupLoop_ops_frame env oid rest
          { store := { w1.store with
              agents := w1.store.agents.filter
                (fun a => !(a.id == agent.id && a.author == oid)) },
            ops := { w1.ops with deletedAgents := w1.ops.deletedAgents ++ [agent.id] } }
        exact ⟨ih.1.trans hw1.1, ih.2.1.trans hw1.2.1, ih.2.2.trans hw1.2.2⟩

theorem cleanupRemovedAgents_frame (env : Env) (ids : List String) (oid : String)
    (w : World) :
    (∀ id2 ∈ ids, ∀ auth,
      getAgent (cleanupRemovedAgents env ids oid w).2.store id2 auth =
        getAgent w.store id2 auth) ∧
    (∀ a ∈ (cleanupRemovedAgents env ids oid w).2.store.agents, a ∈ w.store.agents) ∧
    (cleanupRemovedAgents env ids oid w).2.ops.createdAgents = w.ops.createdAgents ∧
    (cleanupRemovedAgents env ids oid w).2.ops.updatedAgents = w.ops.updatedAgents ∧
    (cleanupRemovedAgents env ids oid w).2.ops.upsertedActions = w.ops.upsertedActions := by
  unfold cleanupRemovedAgents findAgentsByAuthor
  cases hfind : env.findAgentsFail with
  | some msg =>
    exact ⟨fun _ _ _ => rfl, fun a ha => ha, rfl, rfl, rfl⟩
  | none =>
    dsimp only
    by_cases hlen : ((w.store.agents.filter (fun a => a.author == oid)).filter
        (fun a => !ids.contains a.id)).length = 0
    · rw [if_pos hlen]
      exact ⟨fun _ _ _ => rfl, fun a ha => ha, rfl, rfl, rfl⟩
    · rw [if_neg hlen]
      dsimp only
      have hops := cleanupLoop_ops_frame env oid
        ((w.store.agents.filter (fun a => a.author == oid)).filter
          (fun a => !ids.contains a.id)) w
      refine ⟨?_, cleanupLoop_agents_subset env oid _ w, hops.1, hops.2.1, hops.2.2⟩
      intro id2 hid2 auth
      refine cleanupLoop_getAgent_frame env oid _ w id2 auth ?_
      intro o ho
      have hcont := (List.mem_filter.mp ho).2
      simp only [Bool.not_eq_true'] at hcont
      intro hcontra
      rw [hcontra] at hcont
      simp [hid2] at hcont

theorem syncAgentsLoop_skip_all (env : Env) (oid : String) :
    ∀ (cfgs : List AgentConfig) (w : World),
      (∀ c ∈ cfgs, c.actions = none ∨ c.actions = some []) →
      (∀ c ∈ cfgs, ∀ ins av, syncAgentPrecheck env c = .ok (ins, av) →
        ∃ a0, getAgent w.store c.id oid = some a0 ∧
          a0.versions.getLast?.bind (fun v => v.configHash) =
            some (calculateAgentConfigHash c ins av)) →
      (syncAgentsLoop env oid cfgs w).2 = w ∧
      (syncAgentsLoop env oid cfgs w).1.1 = (cfgs.filter (fun c =>
        match syncAgentPrecheck env c with
        | .ok _ => true
        | .error _ => false)).length
  | [], _, _, _ => ⟨rfl, rfl⟩
  | c :: rest, w, hna, hest => by
    have hnarest : ∀ x ∈ rest, x.actions = none ∨ x.actions = some [] :=
      fun x hx => hna x (List.mem_cons_of_mem c hx)
    have hestrest := fun c2 h2 => hest c2 (List.mem_cons_of_mem c h2)
    have ih := syncAgentsLoop_skip_all env oid rest w hnarest hestrest
    rcases hpc : syncAgentPrecheck env c with e | ⟨ins, av⟩
    · have hstep := syncAgent_of_precheck_error env oid c w e hpc
      unfold syncAgentsLoop
      rw [hstep]
      dsimp only
      rcases hrest : syncAgentsLoop env oid rest w with ⟨⟨n, es⟩, w2⟩
      rw [hrest] at ih
      dsimp only at ih ⊢
      refine ⟨ih.1, ?_⟩
      rw [List.filter_cons]
      have hfalse : (match syncAgentPrecheck env c with
          | .ok _ => true | .error _ => false) = false := by
        rw [hpc]
      rw [hfalse]
      simp only [Bool.false_eq_true, if_false]
      exact ih.2
    · rcases hest c (List.mem_cons_self c rest) ins av hpc with ⟨a0, hget, hhash⟩
      have hstep := syncAgent_skip env oid c w ins av a0 hpc
        (hna c (List.mem_cons_self c rest)) hget hhash
      unfold syncAgentsLoop
      rw [hstep]
      dsimp only
      rcases hrest : syncAgentsLoop env oid rest w with ⟨⟨n, es⟩, w2⟩
      rw [hrest] at ih
      dsimp only at ih ⊢
      refine ⟨ih.1, ?_⟩
      rw [List.filter_cons]
      have htrue : (match syncAgentPrecheck env c with
          | .ok _ => true | .error _ => false) = true := by
        rw [hpc]
      rw [htrue]
      simp only [if_true, List.length_cons]
      omega

end DefaultAgents

namespace DefaultAgents

/-- C3 (amended): the original claim — a second sync pass over an unchanged
configuration performs zero agent and action writes — fails for any agent
that declares actions, because syncActions upserts every declared action on
every pass and step 6 then rewrites the agent's action-id list; it holds for
configurations in which no agent declares actions. Precisely: when every
declared agent has an absent or empty action list, the declared ids are
pairwise distinct, and every stored record sharing a declared id is
system-owned, the second run (started on the first run's store with a fresh
op log) creates no agent, updates no agent, upserts no action, reports the
same syncedCount as the first run, and leaves every surviving agent record
exactly as the first run stored it (so no record gains a version). -/
theorem claim_C3_second_run_write_free (env : Env) (cfgs : List AgentConfig) (w : World)
    (hna : ∀ c ∈ cfgs, c.actions = none ∨ c.actions = some [])
    (hnodup : (cfgs.map (fun c => c.id)).Nodup)
    (hclean : ∀ c ∈ cfgs, ∀ x ∈ w.store.agents,
      x.id = c.id → x.author = getDefaultObjectId env) :
    (syncDefaultAgents env (some cfgs)
      { store := (syncDefaultAgents env (some cfgs) w).2.store,
        ops := emptyOps }).2.ops.createdAgents = [] ∧
    (syncDefaultAgents env (some cfgs)
      { store := (syncDefaultAgents env (some cfgs) w).2.store,
        ops := emptyOps }).2.ops.updatedAgents = [] ∧
    (syncDefaultAgents env (some cfgs)
      { store := (syncDefaultAgents env (some cfgs) w).2.store,
        ops := emptyOps }).2.ops.upsertedActions = [] ∧
    (syncDefaultAgents env (some cfgs)
      { store := (syncDefaultAgents env (some cfgs) w).2.store,
        ops := emptyOps }).1.syncedCount =
      (syncDefaultAgents env (some cfgs) w).1.syncedCount ∧
    (∀ a ∈ (syncDefaultAgents env (some cfgs)
      { store := (syncDefaultAgents env (some cfgs) w).2.store,
        ops := emptyOps }).2.store.agents,
      a ∈ (syncDefaultAgents env (some cfgs) w).2.store.agents) := by
  rcases cfgs with _ | ⟨c, rest⟩
  · exact ⟨rfl, rfl, rfl, rfl, fun a ha => ha⟩
  · obtain ⟨hest, hframe, hsub, hact, hops, hcount⟩ :=
      syncAgentsLoop_noacts env (getDefaultObjectId env) (c :: rest) w hna hclean hnodup
    rcases hr1 : syncAgentsLoop env (getDefaultObjectId env) (c :: rest) w with ⟨⟨n1, es1⟩, wL⟩
    rw [hr1] at hest hcount
    dsimp only at hest hcount
    have hclfr := cleanupRemovedAgents_frame env ((c :: rest).map (fun a => a.id))
      (getDefaultObjectId env) wL
    rcases hc1 : cleanupRemovedAgents env ((c :: rest).map (fun a => a.id))
        (getDefaultObjectId env) wL with ⟨res1, w1⟩
    rw [hc1] at hclfr
    obtain ⟨hclget, hclsub, _, _, _⟩ := hclfr
    dsimp only at hclget hclsub
    have hest1 : ∀ c2 ∈ (c :: rest), ∀ ins av,
        syncAgentPrecheck env c2 = .ok (ins, av) →
        ∃ a0, getAgent w1.store c2.id (getDefaultObjectId env) = some a0 ∧
          a0.versions.getLast?.bind (fun v => v.configHash) =
            some (calculateAgentConfigHash c2 ins av) := by
      intro c2 h2 ins av hpre
      rcases hest c2 h2 ins av hpre with ⟨a0, hget, hhash⟩
      refine ⟨a0, ?_, hhash⟩
      rw [hclget c2.id (List.mem_map_of_mem _ h2) (getDefaultObjectId env)]
      exact hget
    obtain ⟨hw2, hn2⟩ := syncAgentsLoop_skip_all env (getDefaultObjectId env) (c :: rest)
      ⟨w1.store, emptyOps⟩ hna hest1
    rcases hr2 : syncAgentsLoop env (getDefaultObjectId env) (c :: rest)
        ⟨w1.store, emptyOps⟩ with ⟨⟨n2, es2⟩, wX⟩
    rw [hr2] at hw2 hn2
    dsimp only at hw2 hn2
    subst hw2
    have hclfr2 := cleanupRemovedAgents_frame env ((c :: rest).map (fun a => a.id))
      (getDefaultObjectId env) ⟨w1.store, emptyOps⟩
    rcases hc2 : cleanupRemovedAgents env ((c :: rest).map (fun a => a.id))
        (getDefaultObjectId env) ⟨w1.store, emptyOps⟩ with ⟨res2, w2⟩
    rw [hc2] at hclfr2
    obtain ⟨_, hsub2, hcr2, hup2, hact2⟩ := hclfr2
    dsimp only at hsub2 hcr2 hup2 hact2
    unfold syncDefaultAgents
    dsimp only
    rw [hr1]
    dsimp only
    rw [hc1]
    rcases res1 with e1 | m1
    · dsimp only
      rw [hr2]
      dsimp only
      rw [hc2]
      rcases res2 with e2 | m2
      · exact ⟨hcr2, hup2, hact2, hn2.trans hcount.symm, hsub2⟩
      · exact ⟨hcr2, hup2, hact2, hn2.trans hcount.symm, hsub2⟩
    · dsimp only
      rw [hr2]
      dsimp only
      rw [hc2]
      rcases res2 with e2 | m2
      · exact ⟨hcr2, hup2, hact2, hn2.trans hcount.symm, hsub2⟩
      · exact ⟨hcr2, hup2, hact2, hn2.trans hcount.symm, hsub2⟩

end DefaultAgents

namespace DefaultAgents

/-- Counterexample for C3 as stated: an agent declaring one action. The
second run, started on the first run's store with a fresh op log, still
upserts the action and rewrites the agent's action-id list — one updateAction
write and one updateAgent write, not zero. -/
theorem claim_C3_counterexample :
    (syncDefaultAgents fxEnv (some [fxActAgent])
      { store := (syncDefaultAgents fxEnv (some [fxActAgent]) fxWorld0).2.store,
        ops := emptyOps }).2.ops.upsertedActions.length = 1 ∧
    (syncDefaultAgents fxEnv (some [fxActAgent])
      { store := (syncDefaultAgents fxEnv (some [fxActAgent]) fxWorld0).2.store,
        ops := emptyOps }).2.ops.updatedAgents = ["act1"] := by
  exact ⟨by decide, by decide⟩

/-- Witness for C3 (amended): two declared agents without actions, synced
twice from the empty store — the second run writes nothing, counts the same
two successes, and leaves the stored records as the first run left them. -/
theorem claim_C3_witness :
    (syncDefaultAgents fxEnv (some [fxOk1, fxOk2])
      { store := (syncDefaultAgents fxEnv (some [fxOk1, fxOk2]) fxWorld0).2.store,
        ops := emptyOps }).2.ops.createdAgents = [] ∧
    (syncDefaultAgents fxEnv (some [fxOk1, fxOk2])
      { store := (syncDefaultAgents fxEnv (some [fxOk1, fxOk2]) fxWorld0).2.store,
        ops := emptyOps }).2.ops.updatedAgents = [] ∧
    (syncDefaultAgents fxEnv (some [fxOk1, fxOk2])
      { store := (syncDefaultAgents fxEnv (some [fxOk1, fxOk2]) fxWorld0).2.store,
        ops := emptyOps }).2.ops.upsertedActions = [] ∧
    (syncDefaultAgents fxEnv (some [fxOk1, fxOk2])
      { store := (syncDefaultAgents fxEnv (some [fxOk1, fxOk2]) fxWorld0).2.store,
        ops := emptyOps }).1.syncedCount =
      (syncDefaultAgents fxEnv (some [fxOk1, fxOk2]) fxWorld0).1.syncedCount ∧
    (∀ a ∈ (syncDefaultAgents fxEnv (some [fxOk1, fxOk2])
      { store := (syncDefaultAgents fxEnv (some [fxOk1, fxOk2]) fxWorld0).2.store,
        ops := emptyOps }).2.store.agents,
      a ∈ (syncDefaultAgents fxEnv (some [fxOk1, fxOk2]) fxWorld0).2.store.agents) :=
  claim_C3_second_run_write_free fxEnv [fxOk1, fxOk2] fxWorld0
    (by
      intro c hc
      rcases List.mem_cons.mp hc with rfl | hc2
      · exact Or.inl rfl
      · rw [List.mem_singleton.mp hc2]
        exact Or.inl rfl)
    (by decide)
    (by
      intro c hc x hx hid
      exact absurd hx (List.not_mem_nil x))

end DefaultAgents
